import Mathlib

/-!
Verification of the MiniAgent step-loop runtime against its specification.

The definitions below are a shallow embedding of the Python sources:
  * `guard/consent.py`  — ConsentManager, risk classification, decision flow;
  * `guard/schema.py`   — action validation and output sanitization;
  * `exec/sandbox.py`   — the timeout/retry tool-execution contract;
  * `core/runtime.py`   — the `run_agent` step loop.
External collaborators (the LLM planner, the filesystem behind
`Path.resolve`, concrete tool handlers, and the interactive user) are
modelled as oracle parameters; everything else follows the source code.
-/

set_option maxRecDepth 100000

namespace MiniAgent

/-! ## Small string/list utilities shared by the embedding -/

/-- Insertion into a Python `set` modelled as a duplicate-free list:
add the element only when it is absent. -/
def setInsert (x : String) (l : List String) : List String :=
  if x ∈ l then l else x :: l

/-- Python `in` on strings: `needle in haystack` (substring containment). -/
def listContainsSub (needle haystack : List Char) : Bool :=
  match haystack with
  | [] => needle.isEmpty
  | _ :: rest => needle.isPrefixOf haystack || listContainsSub needle rest

def strContainsSub (needle haystack : String) : Bool :=
  listContainsSub needle.data haystack.data

/-- Python `str.startswith`, written structurally on the character lists so
that it evaluates inside the kernel. -/
def strStartsWith (s pre : String) : Bool :=
  pre.data.isPrefixOf s.data

/-- Python `str.lower()` restricted to ASCII, which is all the sources use. -/
def strLower (s : String) : String := ⟨s.data.map Char.toLower⟩

/-- Python whitespace for `str.strip()` / `str.split()`. -/
def isPyWs (c : Char) : Bool :=
  c = ' ' || c = '\t' || c = '\n' || c = '\r' || c = '\x0b' || c = '\x0c'

/-- Python `str.strip()`. -/
def pyStrip (s : String) : String :=
  ⟨(s.data.dropWhile isPyWs).reverse.dropWhile isPyWs |>.reverse⟩

/-- `command.split()[0] if command else ""` on an already-stripped string. -/
def firstWord (s : String) : String := ⟨s.data.takeWhile (fun c => !isPyWs c)⟩

/-- Lookup in a string-keyed argument mapping (`dict` with string values). -/
def argsLookup (args : List (String × String)) (k : String) : Option String :=
  (args.find? (fun p => p.1 = k)).map Prod.snd

/-! ## Consent engine (`guard/consent.py`) -/

/-- `ConsentDecision` enum. -/
inductive ConsentDecision
  | ALLOW | DENY | ALLOW_ALL | DENY_ALL | ALLOW_SESSION
deriving DecidableEq, Repr

/-- `ConsentRequest`: the `details` dict passed by the runtime is always
`{"args": tool_args}`, so we carry the tool-argument mapping directly. -/
structure ConsentRequest where
  operation : String
  target : String
  args : List (String × String)
deriving DecidableEq, Repr

/-- The mutable fields of `ConsentManager` (its fixed sets are embedded as
constants below). -/
structure ConsentState where
  interactive : Bool
  autoApproveSafe : Bool
  sessionApprovals : List String
  sessionDenials : List String
  globalAllowAll : Bool
  globalDenyAll : Bool
deriving DecidableEq, Repr

/-- `ConsentManager.__init__` field values (before session mutation). -/
def ConsentState.init (interactive autoApproveSafe : Bool) : ConsentState :=
  ⟨interactive, autoApproveSafe, [], [], false, false⟩

/-- `self.safe_operations`. -/
def safeOperations : List String :=
  ["file.read", "file.list", "web.search", "web.fetch",
   "math.calc", "text.summarize", "system.info", "memory.search"]

/-- `self.high_risk_operations`. -/
def highRiskOperations : List String := ["file.delete", "code.python"]

/-- `self.safe_shell_commands`. -/
def safeShellCommands : List String :=
  ["date", "pwd", "whoami", "id", "uname", "hostname",
   "uptime", "df", "free", "ps", "top", "ls", "cat",
   "head", "tail", "wc", "grep", "find", "which", "echo"]

/-- The `dangerous_patterns` list in `_assess_shell_command_risk`. -/
def dangerousShellPats : List String :=
  ["rm ", "sudo", "chmod 777", "passwd", "useradd", "userdel",
   "mount", "umount", "systemctl", "service", "iptables", "ufw",
   "mkfs", "dd if=", ">/dev/", "curl", "wget", "nc ", "netcat"]

/-- `ConsentManager._assess_shell_command_risk`.  Risk levels are the
literal strings `"low" / "medium" / "high"` used by the source. -/
def assessShellCommandRisk (req : ConsentRequest) : String :=
  match argsLookup req.args "command" with
  | none => "high"
  | some raw =>
    let command := pyStrip raw
    let baseCommand := if command ≠ "" then firstWord command else ""
    if baseCommand ∈ safeShellCommands then "low"
    else
      let commandLower := strLower command
      if dangerousShellPats.any (fun p => strContainsSub p commandLower) then "high"
      else "medium"

/-- `ConsentManager.assess_risk_level`.  `safeDir` is the oracle for
`is_safe_directory` (which consults the filesystem via `Path.resolve`). -/
def assessRiskLevel (safeDir : String → Bool) (req : ConsentRequest) : String :=
  if req.operation ∈ highRiskOperations then "high"
  else if req.operation = "shell.exec" then assessShellCommandRisk req
  else if req.operation ∈ safeOperations then
    if strStartsWith req.operation "file." && req.target ≠ "" then
      if safeDir req.target then "low" else "medium"
    else "low"
  else if strStartsWith req.operation "file." && req.target ≠ "" then
    if req.operation = "file.delete" then "high"
    else if safeDir req.target then "low"
    else "medium"
  else "medium"

/-- `ConsentManager.get_consent_key`. -/
def getConsentKey (req : ConsentRequest) : String :=
  req.operation ++ ":" ++ req.target

/-- The outcome of the interactive prompt loop in `_prompt_user_consent`:
the loop exits only on one of these user responses (`?` and invalid
characters re-prompt). -/
inductive UserChoice
  | allowOnce | denyOnce | allowAll | denyAll | allowSession | interrupt | eof
deriving DecidableEq, Repr

/-- `ConsentManager._prompt_user_consent`: translates the user response and
applies the in-prompt state mutations. -/
def promptUserConsent (s : ConsentState) (req : ConsentRequest) (uc : UserChoice) :
    ConsentDecision × ConsentState :=
  match uc with
  | .allowOnce => (.ALLOW, s)
  | .denyOnce => (.DENY, s)
  | .allowAll => (.ALLOW_ALL, { s with globalAllowAll := true })
  | .denyAll => (.DENY_ALL, { s with globalDenyAll := true })
  | .allowSession =>
      (.ALLOW_SESSION,
       { s with sessionApprovals := setInsert (getConsentKey req) s.sessionApprovals })
  | .interrupt => (.DENY, s)
  | .eof => (.DENY, s)

/-- `ConsentManager.request_consent`. -/
def requestConsent (safeDir : String → Bool) (s : ConsentState)
    (req : ConsentRequest) (uc : UserChoice) : ConsentDecision × ConsentState :=
  let risk := assessRiskLevel safeDir req
  if s.globalAllowAll then (.ALLOW, s)
  else if s.globalDenyAll then (.DENY, s)
  else
    let key := getConsentKey req
    if key ∈ s.sessionApprovals then (.ALLOW, s)
    else if key ∈ s.sessionDenials then (.DENY, s)
    else if !s.interactive then
      if s.autoApproveSafe && risk = "low" then (.ALLOW, s) else (.DENY, s)
    else if s.autoApproveSafe && risk = "low" then (.ALLOW, s)
    else promptUserConsent s req uc

/-- `ConsentManager.record_decision`. -/
def recordDecision (s : ConsentState) (req : ConsentRequest)
    (d : ConsentDecision) : ConsentState :=
  match d with
  | .ALLOW => s
  | .DENY => s
  | .ALLOW_SESSION =>
      { s with sessionApprovals := setInsert (getConsentKey req) s.sessionApprovals }
  | .ALLOW_ALL => { s with globalAllowAll := true }
  | .DENY_ALL => { s with globalDenyAll := true }

/-- `request_operation_consent`: one full consent interaction — request a
decision, record it, and report whether the operation was approved. -/
def requestOperationConsent (safeDir : String → Bool) (s : ConsentState)
    (req : ConsentRequest) (uc : UserChoice) : Bool × ConsentState :=
  let ds := requestConsent safeDir s req uc
  let s2 := recordDecision ds.2 req ds.1
  (ds.1 = .ALLOW || ds.1 = .ALLOW_ALL || ds.1 = .ALLOW_SESSION, s2)

/-- Consent-manager states reachable within one run through the public
consent flow: a freshly constructed manager followed by any sequence of
`request_operation_consent` calls (with arbitrary filesystem answers and
arbitrary user responses). -/
inductive ConsentReachable : ConsentState → Prop
  | init (interactive autoApproveSafe : Bool) :
      ConsentReachable (ConsentState.init interactive autoApproveSafe)
  | step {s : ConsentState} (safeDir : String → Bool)
      (req : ConsentRequest) (uc : UserChoice) :
      ConsentReachable s →
      ConsentReachable (requestOperationConsent safeDir s req uc).2

/-- One consent interaction never produces a state with both global flags
set: the interactive prompt (the only writer of the flags) is unreachable
once either flag holds. -/
theorem consentStep_flags_exclusive (safeDir : String → Bool)
    (s : ConsentState) (req : ConsentRequest) (uc : UserChoice)
    (h : s.globalAllowAll = false ∨ s.globalDenyAll = false) :
    (requestOperationConsent safeDir s req uc).2.globalAllowAll = false ∨
      (requestOperationConsent safeDir s req uc).2.globalDenyAll = false := by
  unfold requestOperationConsent requestConsent
  by_cases hA : s.globalAllowAll <;> by_cases hD : s.globalDenyAll <;>
    simp [hA, hD, recordDecision] at h ⊢
  split_ifs <;> cases uc <;> simp [promptUserConsent, recordDecision, hA, hD]

/-- All reachable consent states have at most one global flag set. -/
theorem consentReachable_flags_exclusive {s : ConsentState}
    (h : ConsentReachable s) :
    s.globalAllowAll = false ∨ s.globalDenyAll = false := by
  induction h with
  | init i a => exact Or.inl rfl
  | step safeDir req uc _ ih => exact consentStep_flags_exclusive _ _ _ _ ih

/-- C5: in every consent state reachable through the public consent flow,
once `global_deny_all` holds, `request_consent` answers Deny for every
operation, target, filesystem answer, and user response. -/
theorem C5_deny_all_is_absorbing {s : ConsentState}
    (h : ConsentReachable s) (hd : s.globalDenyAll = true) :
    ∀ (safeDir : String → Bool) (req : ConsentRequest) (uc : UserChoice),
      (requestConsent safeDir s req uc).1 = ConsentDecision.DENY := by
  intro safeDir req uc
  have hA : s.globalAllowAll = false := by
    rcases consentReachable_flags_exclusive h with h' | h'
    · exact h'
    · rw [h'] at hd; cases hd
  simp [requestConsent, hA, hd]

/-- Witness for C5: a fresh interactive manager in which the user answers
Deny-all to a medium-risk `file.write` request; the next request (a
low-risk read that would otherwise auto-approve) is denied. -/
theorem C5_deny_all_is_absorbing_witness :
    (requestConsent (fun _ => true)
        (requestOperationConsent (fun _ => false) (ConsentState.init true true)
          ⟨"file.write", "/tmp/x", []⟩ UserChoice.denyAll).2
        ⟨"file.read", "./a.txt", []⟩ UserChoice.allowOnce).1 =
      ConsentDecision.DENY := by
  exact C5_deny_all_is_absorbing
    (ConsentReachable.step (fun _ => false) ⟨"file.write", "/tmp/x", []⟩
      UserChoice.denyAll (ConsentReachable.init true true))
    (by decide) (fun _ => true) ⟨"file.read", "./a.txt", []⟩ UserChoice.allowOnce

/-- C3 counterexample: the claim says a state with both global flags set
yields Deny, but `request_consent` checks `global_allow_all` first and
yields Allow on such a state. -/
theorem C3_both_flags_counterexample :
    (requestConsent (fun _ => false)
        ⟨true, true, [], [], true, true⟩
        ⟨"file.write", "/tmp/x", []⟩ UserChoice.denyOnce).1 =
        ConsentDecision.ALLOW ∧
      (requestConsent (fun _ => false)
        ⟨true, true, [], [], true, true⟩
        ⟨"file.write", "/tmp/x", []⟩ UserChoice.denyOnce).1 ≠
        ConsentDecision.DENY := by
  constructor <;> decide

/-- C3 (amended): `request_consent` applies its rules in first-match-wins
order with `global_allow_all` checked before `global_deny_all` (so a state
with both flags set yields Allow): allow-all → Allow; else deny-all →
Deny; else approved session key → Allow; else denied session key → Deny;
else in non-interactive mode Allow iff auto-approve-safe is on and the
computed risk is low, Deny otherwise. -/
theorem C3_decision_precedence (safeDir : String → Bool) (s : ConsentState)
    (req : ConsentRequest) (uc : UserChoice) :
    (s.globalAllowAll = true →
        (requestConsent safeDir s req uc).1 = ConsentDecision.ALLOW) ∧
    (s.globalAllowAll = false → s.globalDenyAll = true →
        (requestConsent safeDir s req uc).1 = ConsentDecision.DENY) ∧
    (s.globalAllowAll = false → s.globalDenyAll = false →
      getConsentKey req ∈ s.sessionApprovals →
        (requestConsent safeDir s req uc).1 = ConsentDecision.ALLOW) ∧
    (s.globalAllowAll = false → s.globalDenyAll = false →
      getConsentKey req ∉ s.sessionApprovals →
      getConsentKey req ∈ s.sessionDenials →
        (requestConsent safeDir s req uc).1 = ConsentDecision.DENY) ∧
    (s.globalAllowAll = false → s.globalDenyAll = false →
      getConsentKey req ∉ s.sessionApprovals →
      getConsentKey req ∉ s.sessionDenials →
      s.interactive = false →
        (requestConsent safeDir s req uc).1 =
          (if s.autoApproveSafe = true ∧ assessRiskLevel safeDir req = "low"
            then ConsentDecision.ALLOW else ConsentDecision.DENY)) := by
  refine ⟨fun hA => ?_, fun hA hD => ?_, fun hA hD hap => ?_,
    fun hA hD hap hden => ?_, fun hA hD hap hden hint => ?_⟩
  all_goals simp [requestConsent, *]
  all_goals (split_ifs <;> simp_all)

/-- Witness for C3 (amended): evaluating the five precedence rules on
concrete states — an allow-all state, a deny-all state, a session-approved
key, a session-denied key, and a non-interactive manager given a low-risk
request. -/
theorem C3_decision_precedence_witness :
    (requestConsent (fun _ => false) ⟨true, true, [], [], true, false⟩
        ⟨"file.write", "x", []⟩ UserChoice.denyOnce).1 = ConsentDecision.ALLOW ∧
    (requestConsent (fun _ => false) ⟨true, true, [], [], false, true⟩
        ⟨"file.write", "x", []⟩ UserChoice.allowOnce).1 = ConsentDecision.DENY ∧
    (requestConsent (fun _ => false) ⟨true, true, ["file.write:x"], [], false, false⟩
        ⟨"file.write", "x", []⟩ UserChoice.denyOnce).1 = ConsentDecision.ALLOW ∧
    (requestConsent (fun _ => false) ⟨true, true, [], ["file.write:x"], false, false⟩
        ⟨"file.write", "x", []⟩ UserChoice.allowOnce).1 = ConsentDecision.DENY ∧
    (requestConsent (fun _ => true) ⟨false, true, [], [], false, false⟩
        ⟨"file.read", "./a.txt", []⟩ UserChoice.denyOnce).1 = ConsentDecision.ALLOW := by
  refine ⟨(C3_decision_precedence _ _ _ _).1 (by decide),
    ((C3_decision_precedence _ _ _ _).2.1 (by decide) (by decide)),
    ((C3_decision_precedence _ _ _ _).2.2.1 (by decide) (by decide) (by decide)),
    ((C3_decision_precedence _ _ _ _).2.2.2.1 (by decide) (by decide) (by decide)
      (by decide)),
    ?_⟩
  have h := (C3_decision_precedence (fun _ => true)
    ⟨false, true, [], [], false, false⟩ ⟨"file.read", "./a.txt", []⟩
    UserChoice.denyOnce).2.2.2.2 (by decide) (by decide) (by decide) (by decide)
    (by decide)
  rw [h]
  decide

/-- C9 counterexample: a plain Deny is not recorded — the state after the
denied request equals the fresh state (in particular `session_denials`
stays empty), and the very same request immediately afterwards is decided
afresh by the prompt, yielding Allow this time. -/
theorem C9_plain_decisions_not_recorded_counterexample :
    (requestOperationConsent (fun _ => false) (ConsentState.init true true)
        ⟨"file.write", "x", []⟩ UserChoice.denyOnce).1 = false ∧
    (requestOperationConsent (fun _ => false) (ConsentState.init true true)
        ⟨"file.write", "x", []⟩ UserChoice.denyOnce).2 =
      ConsentState.init true true ∧
    (requestOperationConsent (fun _ => false) (ConsentState.init true true)
        ⟨"file.write", "x", []⟩ UserChoice.allowOnce).1 = true := by
  refine ⟨by decide, by decide, by decide⟩

/-- C9 (amended): `record_decision` persists only session- and
global-scoped decisions — AllowOperationForSession adds the
`operation:target` key to `session_approvals`, Allow-all / Deny-all set
the corresponding global flag — while a plain Allow or Deny leaves the
manager state unchanged (`session_denials` is never populated), so a
repeated identical request is decided afresh. -/
theorem C9_record_decision_behavior (s : ConsentState) (req : ConsentRequest) :
    recordDecision s req ConsentDecision.ALLOW = s ∧
    recordDecision s req ConsentDecision.DENY = s ∧
    recordDecision s req ConsentDecision.ALLOW_SESSION =
      { s with sessionApprovals := setInsert (getConsentKey req) s.sessionApprovals } ∧
    recordDecision s req ConsentDecision.ALLOW_ALL =
      { s with globalAllowAll := true } ∧
    recordDecision s req ConsentDecision.DENY_ALL =
      { s with globalDenyAll := true } ∧
    (recordDecision s req ConsentDecision.ALLOW).sessionDenials =
      s.sessionDenials ∧
    (recordDecision s req ConsentDecision.DENY).sessionDenials =
      s.sessionDenials := by
  exact ⟨rfl, rfl, rfl, rfl, rfl, rfl, rfl⟩

/-! ## Output sanitization (`guard/schema.py`)

`ContentFilter.filter_sensitive_content` runs `re.finditer` for each of
seven fixed patterns and replaces every occurrence of each match text with
an equal-length `*` mask via `str.replace`.  We embed the regex scan
per pattern: `re.finditer` tries a match at each position left to right
and, on success, resumes after the matched text. -/

/-- Character class `[A-Za-z0-9+/]` of the base64 pattern. -/
def isB64Char (c : Char) : Bool :=
  c.isAlpha || c.isDigit || c = '+' || c = '/'

/-- Character class `[a-zA-Z0-9]`. -/
def isAlnumChar (c : Char) : Bool := c.isAlpha || c.isDigit

/-- Character class `[0-9A-Za-z-_]` of the Google-API-key pattern. -/
def isAIzaChar (c : Char) : Bool := isAlnumChar c || c = '-' || c = '_'

/-- Character class `[0-9A-Z]` of the AWS-key pattern. -/
def isAKIAChar (c : Char) : Bool := c.isDigit || c.isUpper

/-- Character class `[^\s"']` of the password/secret value. -/
def isValueChar (c : Char) : Bool :=
  !isPyWs c && c ≠ '"' && c.toNat ≠ 39

/-- Match attempt at the current position for
`[A-Za-z0-9+/]{40,}={0,2}` (greedy run of at least 40 base64 characters,
then up to two `=`). -/
def matchB64At (s : List Char) : Option (List Char) :=
  let run := s.takeWhile isB64Char
  if run.length ≥ 40 then
    some (run ++ ((s.drop run.length).takeWhile (fun c => c = '=')).take 2)
  else none

/-- Match attempt for a literal tag followed by exactly `n` characters of
class `p` (the `sk-` / `ghp_` / `AIza` / `AKIA` key patterns). -/
def matchLitCountAt (lit : List Char) (p : Char → Bool) (n : Nat)
    (s : List Char) : Option (List Char) :=
  if lit.isPrefixOf s then
    let run := ((s.drop lit.length).takeWhile p).take n
    if run.length = n then some (lit ++ run) else none
  else none

/-- Match attempt for `(?i)word\s*[:=]\s*["']?[^\s"']+` (the password and
secret key-value patterns). -/
def matchKVAt (word : List Char) (s : List Char) : Option (List Char) :=
  let w := s.take word.length
  if w.length = word.length && w.map Char.toLower = word then
    let r1 := s.drop word.length
    let ws1 := r1.takeWhile isPyWs
    match r1.drop ws1.length with
    | [] => none
    | c :: r3 =>
      if c = ':' || c = '=' then
        let ws2 := r3.takeWhile isPyWs
        let r4 := r3.drop ws2.length
        let qr :=
          match r4 with
          | d :: r5 => if d = '"' || d.toNat = 39 then ([d], r5) else ([], r4)
          | [] => (([] : List Char), ([] : List Char))
        let v := qr.2.takeWhile isValueChar
        if v.length ≥ 1 then some (w ++ ws1 ++ [c] ++ ws2 ++ qr.1 ++ v)
        else none
      else none
  else none

/-- `re.finditer`: scan left to right, attempting a match at every
position; a successful match is emitted and scanning resumes after it.
The fuel is the input length (every step consumes at least one char). -/
def findIterAux (matchAt : List Char → Option (List Char)) :
    Nat → List Char → List (List Char)
  | 0, _ => []
  | _ + 1, [] => []
  | fuel + 1, c :: rest =>
    match matchAt (c :: rest) with
    | some g => g :: findIterAux matchAt fuel (rest.drop (g.length - 1))
    | none => findIterAux matchAt fuel rest

def findIter (matchAt : List Char → Option (List Char)) (s : List Char) :
    List (List Char) :=
  findIterAux matchAt s.length s

/-- Python `str.replace(old, new)`: replace all non-overlapping
occurrences left to right (`old` is never empty for our call sites). -/
def replaceAllAux (old new : List Char) : Nat → List Char → List Char
  | 0, s => s
  | _ + 1, [] => []
  | fuel + 1, c :: rest =>
    if old ≠ [] && old.isPrefixOf (c :: rest) then
      new ++ replaceAllAux old new fuel ((c :: rest).drop old.length)
    else c :: replaceAllAux old new fuel rest

def replaceAll (s old new : List Char) : List Char :=
  replaceAllAux old new s.length s

/-- One pattern pass of `filter_sensitive_content`: the matches are those
of the text as it stood when the pass began (Python's lazy `finditer`
walks the original string), and each match text is then replaced
everywhere by an equal-length `*` mask, sequentially. -/
def applyPattern (matchAt : List Char → Option (List Char))
    (t : List Char) : List Char :=
  (findIter matchAt t).foldl
    (fun acc g => replaceAll acc g (List.replicate g.length '*')) t

/-- The seven `sensitive_patterns`, in source order. -/
def sensitiveMatchers : List (List Char → Option (List Char)) :=
  [matchB64At,
   matchLitCountAt "sk-".data isAlnumChar 48,
   matchLitCountAt "ghp_".data isAlnumChar 36,
   matchLitCountAt "AIza".data isAIzaChar 35,
   matchLitCountAt "AKIA".data isAKIAChar 16,
   matchKVAt "password".data,
   matchKVAt "secret".data]

/-- `ContentFilter.filter_sensitive_content` on the character list. -/
def filterSensitiveL (t : List Char) : List Char :=
  sensitiveMatchers.foldl (fun acc m => applyPattern m acc) t

/-- `ContentFilter.filter_sensitive_content` (string case). -/
def filterSensitiveContent (s : String) : String :=
  ⟨filterSensitiveL s.data⟩

/-- `SafetyChecker.max_output_length`. -/
def maxOutputLength : Nat := 10000

/-- `SafetyChecker.check_output_safety` on a string: truncate beyond the
ceiling and append the truncation marker. -/
def checkOutputSafetyL (s : List Char) : List Char :=
  if s.length > maxOutputLength then
    s.take maxOutputLength ++ "... [truncated]".data
  else s

/-- Output values handled by `sanitize_output`: a string, a flat
string-keyed dict whose values may be strings or other leaves, or any
other value (left untouched). -/
inductive PyVal
  | vstr (s : String)
  | vbool (b : Bool)
  | vother
deriving DecidableEq, Repr

inductive PyOut
  | ostr (s : String)
  | odict (entries : List (String × PyVal))
  | oother
deriving DecidableEq, Repr

/-- `sanitize_output`: `check_output_safety` (a no-op on non-strings),
then sensitive-content filtering on the string itself or on each
top-level string value of a dict. -/
def sanitizeOutput : PyOut → PyOut
  | .ostr s => .ostr ⟨filterSensitiveL (checkOutputSafetyL s.data)⟩
  | .odict es =>
      .odict (es.map (fun kv =>
        match kv.2 with
        | .vstr s => (kv.1, PyVal.vstr (filterSensitiveContent s))
        | _ => kv))
  | .oother => .oother

/-- The failing input for C7: a 41-character base64-class run followed by
a space and an 81-character run.  `finditer` matches both runs, but
`str.replace` of the 41-character match text also rewrites the first 82
characters of the 81-character run, leaving a 40-character residue that
still matches the pattern on a second pass. -/
def c7Bad : String :=
  ⟨List.replicate 41 'A' ++ [' '] ++ List.replicate 81 'A'⟩

/-- C7: sanitization is not idempotent, and a matched substring is not
always replaced by an equal-length mask: on `c7Bad` the first pass leaves
40 of the 81 matched characters unmasked, so a second pass changes the
string again. -/
theorem C7_sanitize_not_idempotent :
    sanitizeOutput (sanitizeOutput (.ostr c7Bad)) ≠ sanitizeOutput (.ostr c7Bad) ∧
    sanitizeOutput (.ostr c7Bad) =
      .ostr ⟨List.replicate 41 '*' ++ [' '] ++ List.replicate 41 '*' ++
        List.replicate 40 'A'⟩ := by
  constructor <;> decide

/-! ## Tool executor (`exec/sandbox.py`)

`run_tool` is a tenacity-retried wrapper (`stop_after_attempt(2)`) around
`SandboxExecutor.execute_with_limits`.  The handler is an external
collaborator: we model what happens on each attempt as an oracle
`Nat → HandlerOutcome`.  Timeout seconds are modelled as `Nat` (the value
is only echoed into the error message). -/

/-- The behavior of one handler invocation under `asyncio.wait_for`. -/
inductive HandlerOutcome
  | ok (v : PyOut)          -- returns within the declared timeout
  | raises (msg : String)   -- raises an ordinary exception
  | timesOut                -- exceeds the timeout → `asyncio.TimeoutError`
deriving Repr

/-- The fields of `ToolSpec` the executor reads (`registry.py`), with the
handler itself factored out into the per-attempt oracle. -/
structure ToolSpecM where
  name : String
  timeoutS : Nat
  validator : Option (List (String × String) → Except String (List (String × String)))

/-- `SandboxConfig.blocked_commands` defaults (the global executor is
built with the default config). -/
def blockedCommands : List String :=
  ["rm -rf", "mkfs", "dd if=", ":()\x7b :|:& \x7d;:", "chmod 777",
   "sudo", "su", "chroot", "mount", "umount", "systemctl",
   "service", "iptables", "ufw", "passwd", "useradd", "userdel"]

/-- `SandboxExecutor.validate_command`: raises `SecurityError` when any
blocked command occurs in the lowercased, stripped command text. -/
def validateCommand (command : String) : Except String Unit :=
  let commandLower := pyStrip (strLower command)
  match blockedCommands.find? (fun b => strContainsSub (strLower b) commandLower) with
  | some b => .error ("Blocked command detected: " ++ b)
  | none => .ok ()

/-- The `any(dangerous in spec.name for dangerous in [...])` test in
`execute_with_limits`. -/
def nameHasDangerous (n : String) : Bool :=
  ["shell", "exec", "code"].any (fun d => strContainsSub d n)

/-- The argument-validator stage of `execute_with_limits`: run
`spec.validator` when present; its failure becomes a `SecurityError`. -/
def validatorResult (spec : ToolSpecM) (args : List (String × String)) :
    Except String (List (String × String)) :=
  match spec.validator with
  | none => .ok args
  | some f =>
    match f args with
    | .ok args2 => .ok args2
    | .error e => .error ("Argument validation failed: " ++ e)

/-- The blocked-command stage of `execute_with_limits`: only specs whose
name mentions shell/exec/code with a `command` argument are screened (the
`code` screening merely logs). -/
def commandCheck (spec : ToolSpecM) (args : List (String × String)) :
    Except String Unit :=
  if nameHasDangerous spec.name then
    match argsLookup args "command" with
    | some cmd => validateCommand cmd
    | none => .ok ()
  else .ok ()

/-- Outcome of one `execute_with_limits` call as seen by `run_tool`. -/
inductive ExecOutcome
  | retVal (v : PyOut)      -- normal return
  | secErr (msg : String)   -- `SecurityError` raised
  | exc (msg : String)      -- any other exception raised
deriving Repr

/-- `SandboxExecutor.execute_with_limits` for one attempt: argument
validation, blocked-command screening, then the handler under
`asyncio.wait_for`; a timeout is converted to a `SecurityError`. -/
def executeWithLimits (spec : ToolSpecM) (args : List (String × String))
    (h : HandlerOutcome) : ExecOutcome :=
  match validatorResult spec args with
  | .error e => .secErr e
  | .ok args2 =>
    match commandCheck spec args2 with
    | .error e => .secErr e
    | .ok _ =>
      match h with
      | .ok v => .retVal v
      | .raises m => .exc m
      | .timesOut =>
          .secErr ("Tool execution timed out after " ++
            toString spec.timeoutS ++ " seconds")

/-- The `{"error": ..., "blocked": True}` result `run_tool` returns when a
`SecurityError` is caught. -/
def errorBlockedDict (msg : String) : PyOut :=
  .odict [("error", PyVal.vstr ("Security violation: " ++ msg)),
          ("blocked", PyVal.vbool true)]

/-- `run_tool`: at most 2 attempts (tenacity `stop_after_attempt(2)`); a
caught `SecurityError` produces a normal return value, which stops the
retry loop; only a re-raised ordinary exception triggers the one retry;
a second failure escapes as tenacity `RetryError`.  The second component
counts the attempts actually made. -/
def runTool (spec : ToolSpecM) (args : List (String × String))
    (behavior : Nat → HandlerOutcome) : Except String PyOut × Nat :=
  match executeWithLimits spec args (behavior 0) with
  | .retVal v => (.ok v, 1)
  | .secErr m => (.ok (errorBlockedDict m), 1)
  | .exc _ =>
    match executeWithLimits spec args (behavior 1) with
    | .retVal v => (.ok v, 2)
    | .secErr m2 => (.ok (errorBlockedDict m2), 2)
    | .exc m2 => (.error ("RetryError: " ++ m2), 2)

/-- C8: a handler that exceeds the declared timeout makes `run_tool`
return the `{error, blocked: true}` dict — not raise — after a single
attempt (no retry after a timeout-classified failure); and no call ever
makes more than 2 attempts, the second occurring exactly when the first
attempt raised an ordinary (non-timeout, non-security) exception. -/
theorem C8_timeout_returns_blocked_no_retry (spec : ToolSpecM)
    (args args2 : List (String × String)) (behavior : Nat → HandlerOutcome)
    (hv : validatorResult spec args = .ok args2)
    (hc : commandCheck spec args2 = .ok ())
    (ht : behavior 0 = HandlerOutcome.timesOut) :
    runTool spec args behavior =
      (.ok (errorBlockedDict ("Tool execution timed out after " ++
          toString spec.timeoutS ++ " seconds")), 1) ∧
    (∀ b : Nat → HandlerOutcome, (runTool spec args b).2 ≤ 2) ∧
    (∀ b : Nat → HandlerOutcome,
      (runTool spec args b).2 = 2 ↔
        ∃ m, executeWithLimits spec args (b 0) = ExecOutcome.exc m) := by
  refine ⟨?_, ?_, ?_⟩
  · simp [runTool, executeWithLimits, hv, hc, ht]
  · intro b
    unfold runTool
    rcases executeWithLimits spec args (b 0) with v | m | m <;> simp
    rcases executeWithLimits spec args (b 1) with v2 | m2 | m2 <;> simp
  · intro b
    unfold runTool
    rcases hx : executeWithLimits spec args (b 0) with v | m | m <;> simp
    rcases executeWithLimits spec args (b 1) with v2 | m2 | m2 <;> simp

/-- Witness for C8: a validator-free tool whose handler always times out
returns the blocked-error dict after one attempt. -/
theorem C8_timeout_returns_blocked_no_retry_witness :
    runTool ⟨"file.read", 15, none⟩ [] (fun _ => HandlerOutcome.timesOut) =
      (.ok (errorBlockedDict "Tool execution timed out after 15 seconds"), 1) :=
  (C8_timeout_returns_blocked_no_retry ⟨"file.read", 15, none⟩ [] []
    (fun _ => HandlerOutcome.timesOut) rfl rfl rfl).1

/-! ## The step loop (`core/runtime.py`)

`run_agent` is embedded as a state machine.  External collaborators are
oracles in `RuntimeEnv`: the planner (`plan_next`), the registry content,
the filesystem behind the two path-safety checks, the outcome of each
`await run_tool(...)` call, and the interactive user's answer at each
consent request.  Memory writes (`state.remember`, `mem.notes`) have no
effect on control flow and are not tracked. -/

/-- A validated action (`Action.dict()` restricted to the fields the loop
reads).  `think` and `finish` keep their possibly-`None` payloads because
`action_obj.dict()` always carries the keys. -/
inductive AgentAction
  | tool (name : String) (args : List (String × String))
  | think (reasoning : Option String)
  | finish (output : Option String)
deriving DecidableEq, Repr

/-- One record of `state.history`. -/
inductive Entry
  | action (step : Nat) (a : AgentAction)
  | error (step : Nat) (msg : String)
  | consentDenied (step : Nat) (operation : String)
  | finalResult (step : Nat) (result : String)
  | observation (step : Nat) (result : PyOut)
  | thought (step : Nat) (reasoning : Option String)
deriving DecidableEq, Repr

/-- The `step` value stored in a history record. -/
def Entry.stepIdx : Entry → Nat
  | .action s _ => s
  | .error s _ => s
  | .consentDenied s _ => s
  | .finalResult s _ => s
  | .observation s _ => s
  | .thought s _ => s

/-- `entry.get("consent_denied") and entry.get("operation") == op`. -/
def Entry.isDenialOf (op : String) : Entry → Bool
  | .consentDenied _ o => o = op
  | _ => false

def Entry.isConsentDenied : Entry → Bool
  | .consentDenied _ _ => true
  | _ => false

def Entry.isFinalResult : Entry → Bool
  | .finalResult _ _ => true
  | _ => false

/-- The raw dict handed back by the planner collaborator, as seen by
`Action(**action)`:  `argsIsDict = false` models an `args` value that is
not a mapping (which pydantic rejects). -/
structure RawAction where
  type : String
  name : Option String
  argsIsDict : Bool
  args : List (String × String)
  output : Option String
  reasoning : Option String
deriving DecidableEq, Repr

/-- The behavior of one `plan_next` call. -/
inductive PlanOutcome
  | raises (msg : String)
  | acts (raw : RawAction)

/-- Oracles for the loop's external collaborators. -/
structure RuntimeEnv where
  plan : Nat → List Entry → PlanOutcome
  toolExists : String → Bool
  fileOpSafe : String → String → Bool
  safeDir : String → Bool
  toolRun : Nat → Except String PyOut
  userChoice : Nat → UserChoice

/-- The `ConsentConfig` flags the runtime reads. -/
structure ConsentCfg where
  enableInteractive : Bool
  autoApproveSafe : Bool
  autoApproveRead : Bool
  requireWrite : Bool
  requireDelete : Bool
  requireExecute : Bool
deriving DecidableEq, Repr

/-- `_check_if_consent_needed`: consent is skipped entirely when the run
is not interactive; otherwise the per-operation config flags decide, with
`False` for any unlisted tool (`tool_args` is accepted but never read). -/
def checkIfConsentNeeded (toolName : String) (_toolArgs : List (String × String))
    (cfg : ConsentCfg) (interactiveConsent : Bool) : Bool :=
  if !interactiveConsent then false
  else if toolName = "file.write" then cfg.requireWrite
  else if toolName = "file.delete" then cfg.requireDelete
  else if toolName = "file.mkdir" then cfg.requireWrite
  else if toolName = "shell.exec" then cfg.requireExecute
  else if toolName = "code.python" then cfg.requireExecute
  else if toolName = "file.read" then !cfg.autoApproveRead
  else if toolName = "file.list" then !cfg.autoApproveRead
  else false

/-- `_extract_operation_target`. -/
def extractOperationTarget (toolName : String) (args : List (String × String)) : String :=
  match ["path", "command", "code", "q", "query", "url"].findSome?
      (fun f => argsLookup args f) with
  | some v => if v.length > 100 then ⟨v.data.take 97⟩ ++ "..." else v
  | none => "<" ++ toolName ++ " operation>"

/-- `name.split(".")[-1]` (splitting on dots). -/
def splitOnDotL : List Char → List (List Char)
  | [] => [[]]
  | c :: rest =>
    let r := splitOnDotL rest
    if c = '.' then [] :: r
    else
      match r with
      | h :: t => (c :: h) :: t
      | [] => [[c]]

def lastDotComponent (s : String) : String :=
  ⟨(splitOnDotL s.data).getLastD []⟩

/-- A blocked regex of `SafetyChecker.blocked_patterns`, written as its
literal chunks separated by `\s+` (a trailing empty chunk encodes a
trailing `\s+`). -/
def matchPartsGap : List (List Char) → List Char → Bool
  | [], _ => true
  | p :: rest, s =>
    let ws := s.takeWhile isPyWs
    decide (ws.length ≥ 1) && p.isPrefixOf (s.drop ws.length) &&
      matchPartsGap rest (s.drop (ws.length + p.length))

def matchPartsAt (parts : List (List Char)) (s : List Char) : Bool :=
  match parts with
  | [] => true
  | p0 :: rest => p0.isPrefixOf s && matchPartsGap rest (s.drop p0.length)

/-- `re.search`: try the pattern at every position. -/
def searchParts (parts : List (List Char)) : List Char → Bool
  | [] => matchPartsAt parts []
  | c :: rest => matchPartsAt parts (c :: rest) || searchParts parts (rest)

/-- `SafetyChecker.blocked_patterns` in chunked form. -/
def blockedPatterns : List (List String) :=
  [["rm", "-rf", "/"], ["sudo", "rm"], ["mkfs"], ["dd", "if="],
   ["chmod", "777"], ["passwd", ""], ["useradd", ""], ["userdel", ""],
   ["mount", ""], ["umount", ""], ["systemctl", ""], ["service", ""],
   ["iptables", ""], ["ufw", ""]]

/-- `SafetyChecker.check_command_safety`: `False` iff a blocked pattern
matches the lowercased, stripped command (suspicious patterns only log). -/
def checkCommandSafety (command : String) : Bool :=
  let cl := (pyStrip (strLower command)).data
  !(blockedPatterns.any (fun ps => searchParts (ps.map String.data) cl))

/-- `validate_action` (`guard/schema.py`): pydantic shape validation, the
tool-argument screens, and the sensitive-content filter on `output`.
`fileOpSafe` is the filesystem oracle for `check_file_operation_safety`
(`check_code_safety` always passes). -/
def validateAction (fileOpSafe : String → String → Bool) (raw : RawAction) :
    Except String AgentAction :=
  if raw.type ≠ "tool" && raw.type ≠ "think" && raw.type ≠ "finish" then
    .error "type must be one of tool, think, finish"
  else if raw.type = "tool" && (raw.name = none || raw.name = some "") then
    .error "Tool name is required for tool actions"
  else if !raw.argsIsDict then
    .error "Tool args must be a dictionary"
  else if raw.type = "tool" then
    let args := raw.args
    if decide (args.length > 20) ||
        args.any (fun kv => decide (kv.2.length > 50000)) then
      .error "Tool arguments failed validation"
    else
      let name := raw.name.getD ""
      if (name = "shell.exec" || name = "code.python") &&
          (match argsLookup args "command" with
           | some cmd => !checkCommandSafety cmd
           | none => false) then
        .error "Command failed safety check"
      else if strContainsSub "file." name &&
          (match argsLookup args "path" with
           | some p => !fileOpSafe p (lastDotComponent name)
           | none => false) then
        .error "File operation failed safety check"
      else .ok (.tool name args)
  else if raw.type = "think" then .ok (.think raw.reasoning)
  else
    .ok (.finish (match raw.output with
      | some s => if s = "" then some s else some (filterSensitiveContent s)
      | none => none))

/-- Loop-carried state: the history plus the consent-manager state and the
oracle cursors (one per consent request, one per tool invocation). -/
structure LoopSt where
  history : List Entry
  consent : ConsentState
  consentCalls : Nat
  toolCalls : Nat
deriving DecidableEq, Repr

/-- What one iteration decides to do after its block of appends. -/
inductive StepCtrl
  | contin
  | breakerStop (result : String)
  | finishStop (result : Option String)
deriving DecidableEq, Repr

/-- The effect of one iteration: the history entries it appends (in
order), the updated consent state and cursors, and whether it returns. -/
structure StepEffect where
  entries : List Entry
  consent : ConsentState
  consentCalls : Nat
  toolCalls : Nat
  ctrl : StepCtrl
deriving Repr

/-- `f"Error at step {step}: {msg}"`, the iteration-boundary catch. -/
def errAt (step : Nat) (msg : String) : String :=
  "Error at step " ++ toString step ++ ": " ++ msg

/-- The denial circuit breaker's hard-coded final result. -/
def breakerMessage (toolName : String) : String :=
  "I cannot complete this task because the user has denied permission for '" ++
  toolName ++
  "' operations. Please manually perform this operation or grant permission if you'd like me to proceed."

/-- `sum(1 for entry in state.history[-5:] if ...)`: denials of `op` among
the trailing five history entries. -/
def denialCount (op : String) (h : List Entry) : Nat :=
  ((h.drop (h.length - 5)).filter (Entry.isDenialOf op)).length

/-- The tool-invocation tail of a tool iteration: `await run_tool(...)`
either raises (caught at the iteration boundary) or returns a value that
is sanitized and recorded as the observation. -/
def toolEffect (env : RuntimeEnv) (step : Nat) (act : AgentAction)
    (consent : ConsentState) (cCalls tCalls : Nat) : StepEffect :=
  match env.toolRun tCalls with
  | .error msg =>
      ⟨[.action step act, .error step (errAt step msg)],
       consent, cCalls, tCalls + 1, .contin⟩
  | .ok v =>
      ⟨[.action step act, .observation step (sanitizeOutput v)],
       consent, cCalls, tCalls + 1, .contin⟩

/-- The think branch.  A `None` reasoning crashes inside the branch (it is
subscripted for logging, or split when live thinking is shown), so the
iteration-boundary catch appends an error record; with live thinking the
crash happens before the thought record is appended. -/
def thinkEffect (step : Nat) (act : AgentAction) (r : Option String)
    (showThinking quietMode : Bool) : StepEffect → StepEffect :=
  fun base =>
    match r with
    | some s => { base with entries := [.action step act, .thought step (some s)] }
    | none =>
      if showThinking && !quietMode then
        { base with entries :=
            [.action step act,
             .error step (errAt step "'NoneType' object has no attribute 'split'")] }
      else
        { base with entries :=
            [.action step act, .thought step none,
             .error step (errAt step "'NoneType' object is not subscriptable")] }

/-- One iteration of the `for step in range(max_steps)` body. -/
def runStepEffect (env : RuntimeEnv) (cfg : ConsentCfg)
    (interactive showThinking quietMode : Bool) (step : Nat) (st : LoopSt) :
    StepEffect :=
  let keep : StepEffect := ⟨[], st.consent, st.consentCalls, st.toolCalls, .contin⟩
  match env.plan step st.history with
  | .raises msg => { keep with entries := [.error step (errAt step msg)] }
  | .acts raw =>
    match validateAction env.fileOpSafe raw with
    | .error e =>
        { keep with entries := [.error step ("Action validation failed: " ++ e)] }
    | .ok act =>
      match act with
      | .tool name args =>
        if !env.toolExists name then
          { keep with entries :=
              [.action step act, .error step (errAt step ("'" ++ name ++ "'"))] }
        else if checkIfConsentNeeded name args cfg interactive then
          let req : ConsentRequest := ⟨name, extractOperationTarget name args, args⟩
          let gs := requestOperationConsent env.safeDir st.consent req
            (env.userChoice st.consentCalls)
          if !gs.1 then
            let h2 := st.history ++ [.action step act, .consentDenied step name]
            if denialCount name h2 ≥ 2 then
              ⟨[.action step act, .consentDenied step name,
                .finalResult step (breakerMessage name)],
               gs.2, st.consentCalls + 1, st.toolCalls,
               .breakerStop (breakerMessage name)⟩
            else
              ⟨[.action step act, .consentDenied step name],
               gs.2, st.consentCalls + 1, st.toolCalls, .contin⟩
          else toolEffect env step act gs.2 (st.consentCalls + 1) st.toolCalls
        else toolEffect env step act st.consent st.consentCalls st.toolCalls
      | .think r => thinkEffect step act r showThinking quietMode keep
      | .finish out => { keep with entries := [.action step act], ctrl := .finishStop out }

/-- Apply an iteration's effect to the loop state. -/
def LoopSt.apply (st : LoopSt) (ef : StepEffect) : LoopSt :=
  ⟨st.history ++ ef.entries, ef.consent, ef.consentCalls, ef.toolCalls⟩

/-- The value `run_agent` returns, tagged by which `return` produced it
(the keys of the returned dict differ between them). -/
inductive RunRet
  | invalidGoal
  | breaker (result : String) (st : LoopSt)
  | finished (result : Option String) (st : LoopSt)
  | maxStepsHit (result : String) (st : LoopSt)
deriving DecidableEq, Repr

/-- The keys of the dict each `return` statement builds, in source
order. -/
def RunRet.retKeys : RunRet → List String
  | .invalidGoal => ["error", "trace_id"]
  | .breaker _ _ => ["trace_id", "result", "history", "context"]
  | .finished _ _ => ["trace_id", "result", "history", "memory_summary"]
  | .maxStepsHit _ _ => ["trace_id", "result", "history", "memory_summary"]

/-- The loop state carried by a loop-terminal return. -/
def RunRet.finalSt : RunRet → Option LoopSt
  | .invalidGoal => none
  | .breaker _ st => some st
  | .finished _ st => some st
  | .maxStepsHit _ st => some st

/-- The recorded history of a loop-terminal return. -/
def RunRet.histOf (r : RunRet) : Option (List Entry) :=
  r.finalSt.map LoopSt.history

/-- The `for step in range(max_steps)` loop: fuel counts the remaining
iterations (`step + fuel = max_steps` throughout). -/
def runLoopAux (env : RuntimeEnv) (cfg : ConsentCfg)
    (interactive showThinking quietMode : Bool) (maxSteps : Nat) :
    Nat → Nat → LoopSt → RunRet
  | 0, _, st =>
      .maxStepsHit ("Task partially completed after " ++ toString maxSteps ++
        " steps") st
  | fuel + 1, step, st =>
    let ef := runStepEffect env cfg interactive showThinking quietMode step st
    let st2 := st.apply ef
    match ef.ctrl with
    | .contin => runLoopAux env cfg interactive showThinking quietMode maxSteps
        fuel (step + 1) st2
    | .breakerStop res => .breaker res st2
    | .finishStop res => .finished res st2

/-- `run_agent(goal, max_steps, show_thinking, quiet_mode,
interactive_consent)`.  `goalValid` is the outcome of
`input_validator.validate_user_input(goal)`; a `None`
`interactive_consent` falls back to the config flag; the consent manager
is constructed fresh for the run. -/
def runAgent (env : RuntimeEnv) (cfg : ConsentCfg) (goalValid : Bool)
    (maxSteps : Nat) (showThinking quietMode : Bool)
    (interactiveParam : Option Bool) : RunRet :=
  if !goalValid then .invalidGoal
  else
    let interactive := interactiveParam.getD cfg.enableInteractive
    runLoopAux env cfg interactive showThinking quietMode maxSteps maxSteps 0
      ⟨[], ConsentState.init interactive cfg.autoApproveSafe, 0, 0⟩

/-! ## Concrete runs used as counterexamples and witnesses -/

/-- A configuration with interactive consent available and all
write/delete/execute consents required. -/
def cfgT : ConsentCfg := ⟨true, false, true, true, true, true⟩

/-- A planner that always asks for `file.write` on an unsafe path with a
user who answers Deny each time. -/
def envDeny : RuntimeEnv where
  plan := fun _ _ => .acts ⟨"tool", some "file.write", true, [("path", "x")], none, none⟩
  toolExists := fun _ => true
  fileOpSafe := fun _ _ => true
  safeDir := fun _ => false
  toolRun := fun _ => .ok (.ostr "ok")
  userChoice := fun _ => .denyOnce

/-- A planner that immediately finishes with output `"done"`. -/
def envFin : RuntimeEnv :=
  { envDeny with
    plan := fun _ _ => .acts ⟨"finish", none, true, [], some "done", none⟩ }

/-- A planner that always calls `math.calc` (no consent needed). -/
def envTool : RuntimeEnv :=
  { envDeny with
    plan := fun _ _ =>
      .acts ⟨"tool", some "math.calc", true, [("expression", "2 + 2")], none, none⟩ }

/-- The history of the two-denial run of `envDeny`. -/
def denyHist : List Entry :=
  [.action 0 (.tool "file.write" [("path", "x")]),
   .consentDenied 0 "file.write",
   .action 1 (.tool "file.write" [("path", "x")]),
   .consentDenied 1 "file.write",
   .finalResult 1 (breakerMessage "file.write")]

/-- The loop state the two-denial run of `envDeny` terminates in. -/
def denyFinalSt : LoopSt :=
  ⟨denyHist, ⟨true, false, [], [], false, false⟩, 2, 0⟩

/-- C2 counterexample: a run that terminates through the denial circuit
breaker returns the keys `trace_id, result, history, context` — not the
claimed `trace_id, result, history, memory_summary`. -/
theorem C2_breaker_keys_counterexample :
    (runAgent envDeny cfgT true 3 false false (some true)).retKeys =
      ["trace_id", "result", "history", "context"] ∧
    (runAgent envDeny cfgT true 3 false false (some true)).retKeys ≠
      ["trace_id", "result", "history", "memory_summary"] := by
  constructor <;> decide

/-- C4 counterexample: a run that terminates through an explicit Finish
action records no `{step, final_result}` entry at all — the only record
of the terminal iteration is the `{step, action}` entry. -/
theorem C4_finish_no_final_record_counterexample :
    runAgent envFin cfgT true 3 false false (some false) =
      .finished (some "done")
        ⟨[.action 0 (.finish (some "done"))], ⟨false, false, [], [], false, false⟩, 0, 0⟩ ∧
    ([Entry.action 0 (.finish (some "done"))].all
        (fun e => !e.isFinalResult)) = true := by
  constructor <;> decide

/-- C6 counterexample: a single tool iteration appends both its action
record and its observation record under the same step index 0, so history
indices are not strictly increasing and index 0 is used twice. -/
theorem C6_duplicate_index_counterexample :
    (runAgent envTool cfgT true 1 false false (some false)).histOf.map
        (fun h => h.map Entry.stepIdx) = some [0, 0] ∧
    ¬ List.Chain' (· < ·) [0, 0] := by
  refine ⟨by decide, ?_⟩
  intro h
  exact absurd (List.chain'_cons.mp h).1 (by omega)

/-! ## Step-index chain machinery (for C6) -/

/-- Indices continuing from `prev` by staying put or advancing by one. -/
def stepChain : Nat → List Nat → Bool
  | _, [] => true
  | prev, i :: rest =>
      (decide (i = prev) || decide (i = prev + 1)) && stepChain i rest

/-- Indices start at 0 and are non-decreasing without gaps (repeats
allowed). -/
def goodSteps : List Nat → Bool
  | [] => true
  | i :: rest => decide (i = 0) && stepChain i rest

/-- The last element of a list, with default `d` (own recursor so the
equations rewrite cleanly). -/
def lastIdxD (l : List Nat) (d : Nat) : Nat :=
  match l with
  | [] => d
  | x :: rest => lastIdxD rest x

theorem lastIdxD_ne_nil_eq (l : List Nat) (d1 d2 : Nat) (h : l ≠ []) :
    lastIdxD l d1 = lastIdxD l d2 := by
  cases l with
  | nil => exact absurd rfl h
  | cons x rest => rfl

theorem lastIdxD_append (l1 l2 : List Nat) (d : Nat) (h : l2 ≠ []) :
    lastIdxD (l1 ++ l2) d = lastIdxD l2 d := by
  induction l1 generalizing d with
  | nil => rfl
  | cons x rest ih =>
    show lastIdxD (rest ++ l2) x = lastIdxD l2 d
    rw [ih x]
    exact lastIdxD_ne_nil_eq l2 x d h

theorem lastIdxD_all_eq (s : Nat) :
    ∀ b : List Nat, (∀ x ∈ b, x = s) → b ≠ [] → ∀ d, lastIdxD b d = s := by
  intro b
  induction b with
  | nil => intro _ h; exact absurd rfl h
  | cons x rest ih =>
    intro hb _ d
    show lastIdxD rest x = s
    cases rest with
    | nil => exact hb x (by simp)
    | cons y t =>
      exact ih (fun z hz => hb z (List.mem_cons_of_mem _ hz)) (by simp) x

theorem stepChain_all_eq (s : Nat) :
    ∀ l : List Nat, (∀ x ∈ l, x = s) → stepChain s l = true := by
  intro l
  induction l with
  | nil => intro _; rfl
  | cons x rest ih =>
    intro hx
    have hxs : x = s := hx x (by simp)
    subst hxs
    have hr := ih (fun y hy => hx y (List.mem_cons_of_mem _ hy))
    simp [stepChain, hr]

theorem stepChain_append (p : Nat) (l1 l2 : List Nat)
    (h1 : stepChain p l1 = true)
    (h2 : stepChain (lastIdxD l1 p) l2 = true) :
    stepChain p (l1 ++ l2) = true := by
  induction l1 generalizing p with
  | nil => simpa using h2
  | cons x rest ih =>
    simp only [stepChain, Bool.and_eq_true] at h1
    simp only [List.cons_append, stepChain, Bool.and_eq_true]
    exact ⟨h1.1, ih x h1.2 h2⟩

theorem goodSteps_append (h b : List Nat) (s : Nat)
    (hb : ∀ x ∈ b, x = s)
    (hh : goodSteps h = true)
    (hl : (h = [] ∧ s = 0) ∨ (h ≠ [] ∧ lastIdxD h 0 = s - 1)) :
    goodSteps (h ++ b) = true := by
  cases h with
  | nil =>
    rcases hl with ⟨-, hs⟩ | ⟨hne, -⟩
    · subst hs
      cases b with
      | nil => rfl
      | cons x rest =>
        have hx : x = 0 := hb x (by simp)
        subst hx
        have hr := stepChain_all_eq 0 rest
          (fun y hy => hb y (List.mem_cons_of_mem _ hy))
        simp [goodSteps, hr]
    · exact absurd rfl hne
  | cons i rest =>
    rcases hl with ⟨hcon, -⟩ | ⟨-, hlast⟩
    · cases hcon
    simp only [goodSteps, Bool.and_eq_true, decide_eq_true_eq] at hh
    simp only [List.cons_append, goodSteps, Bool.and_eq_true, decide_eq_true_eq]
    refine ⟨hh.1, stepChain_append i rest b hh.2 ?_⟩
    have hlr : lastIdxD rest i = s - 1 := hlast
    rw [hlr]
    cases b with
    | nil => rfl
    | cons x t =>
      have hx : x = s := hb x (by simp)
      subst hx
      have hr := stepChain_all_eq x t
        (fun y hy => hb y (List.mem_cons_of_mem _ hy))
      simp only [stepChain, Bool.and_eq_true, Bool.or_eq_true, decide_eq_true_eq]
      exact ⟨by omega, hr⟩

/-! ## Denial counting and pair-freedom machinery (for C1) -/

/-- Number of consent-denied-for-`op` records in a list. -/
def countDenOf (op : String) (l : List Entry) : Nat :=
  (l.filter (Entry.isDenialOf op)).length

theorem denialCount_eq_countDenOf (op : String) (h : List Entry) :
    denialCount op h = countDenOf op (h.drop (h.length - 5)) := rfl

theorem countDenOf_append (op : String) (l1 l2 : List Entry) :
    countDenOf op (l1 ++ l2) = countDenOf op l1 + countDenOf op l2 := by
  simp [countDenOf, List.filter_append]

theorem countDenOf_sublist (op : String) {l1 l2 : List Entry}
    (h : l1.Sublist l2) : countDenOf op l1 ≤ countDenOf op l2 :=
  (h.filter _).length_le

theorem countDenOf_drop_le (op : String) (l : List Entry) (m n : Nat)
    (h : n ≤ m) : countDenOf op (l.drop m) ≤ countDenOf op (l.drop n) := by
  have : l.drop m = (l.drop n).drop (m - n) := by
    rw [List.drop_drop]
    congr 1
    omega
  rw [this]
  exact countDenOf_sublist op (List.drop_sublist _ _)

/-- The trailing-five window of `h ++ b` holds at most the old window's
denials of `op` plus those in `b`. -/
theorem denialCount_append_le (op : String) (h b : List Entry) :
    denialCount op (h ++ b) ≤ denialCount op h + countDenOf op b := by
  rw [denialCount_eq_countDenOf, denialCount_eq_countDenOf]
  by_cases hb : h.length ≤ (h ++ b).length - 5
  · have : ((h ++ b).drop ((h ++ b).length - 5)).Sublist b := by
      have h1 : (h ++ b).drop ((h ++ b).length - 5) =
          b.drop ((h ++ b).length - 5 - h.length) := by
        rw [List.drop_append_eq_append_drop]
        rw [List.drop_eq_nil_of_le hb, List.nil_append]
      rw [h1]
      exact List.drop_sublist _ _
    calc countDenOf op ((h ++ b).drop ((h ++ b).length - 5)) ≤ countDenOf op b :=
          countDenOf_sublist op this
      _ ≤ _ := Nat.le_add_left _ _
  · push_neg at hb
    have hsplit : (h ++ b).drop ((h ++ b).length - 5) =
        h.drop ((h ++ b).length - 5) ++ b := by
      rw [List.drop_append_eq_append_drop]
      have : (h ++ b).length - 5 - h.length = 0 := by omega
      rw [this, List.drop_zero]
    rw [hsplit, countDenOf_append]
    have : countDenOf op (h.drop ((h ++ b).length - 5)) ≤
        countDenOf op (h.drop (h.length - 5)) := by
      apply countDenOf_drop_le
      simp only [List.length_append]
      omega
    omega

/-- No two consent-denied records of the same operation lie within four
positions of each other. -/
def noDenialPair (h : List Entry) : Prop :=
  ∀ (op : String) (i j : Nat) (e1 e2 : Entry),
    i < j → j ≤ i + 4 → h.get? i = some e1 → h.get? j = some e2 →
    e1.isDenialOf op = true → e2.isDenialOf op = true → False

theorem isDenialOf_isConsentDenied {op : String} {e : Entry}
    (h : e.isDenialOf op = true) : e.isConsentDenied = true := by
  cases e <;> simp_all [Entry.isDenialOf, Entry.isConsentDenied]

theorem noDenialPair_append_safe (h b : List Entry)
    (hn : noDenialPair h)
    (hb : ∀ e ∈ b, e.isConsentDenied = false) : noDenialPair (h ++ b) := by
  intro op i j e1 e2 hij hjle hi1 hi2 hd1 hd2
  by_cases hjl : j < h.length
  · exact hn op i j e1 e2 hij hjle
      (by rwa [List.get?_append (lt_trans hij hjl)] at hi1)
      (by rwa [List.get?_append hjl] at hi2) hd1 hd2
  · have hmem : e2 ∈ b := by
      rw [List.get?_append_right (le_of_not_lt hjl)] at hi2
      exact List.get?_mem hi2
    exact absurd (isDenialOf_isConsentDenied hd2) (by simp [hb e2 hmem])

/-- Two denial records at positions `i < j` force a filter count of at
least two. -/
theorem two_denials_le_count (l : List Entry) (op : String) (i j : Nat)
    (e1 e2 : Entry) (hij : i < j)
    (h1 : l.get? i = some e1) (h2 : l.get? j = some e2)
    (hd1 : e1.isDenialOf op = true) (hd2 : e2.isDenialOf op = true) :
    2 ≤ countDenOf op l := by
  obtain ⟨hi, hget⟩ := List.get?_eq_some.mp h1
  have hdrop : l.drop i = e1 :: l.drop (i + 1) := by
    rw [List.drop_eq_get_cons hi, hget]
  have hmem2 : e2 ∈ l.drop (i + 1) := by
    have : (l.drop (i + 1)).get? (j - (i + 1)) = some e2 := by
      rw [List.get?_drop]
      have : i + 1 + (j - (i + 1)) = j := by omega
      rw [this, h2]
    exact List.get?_mem this
  have hsub : [e1, e2].Sublist l := by
    have h1' : [e1, e2].Sublist (e1 :: l.drop (i + 1)) :=
      List.Sublist.cons₂ e1 (List.singleton_sublist.mpr hmem2)
    rw [← hdrop] at h1'
    exact h1'.trans (List.drop_sublist _ _)
  calc 2 = countDenOf op [e1, e2] := by simp [countDenOf, hd1, hd2]
    _ ≤ countDenOf op l := countDenOf_sublist op hsub

/-- Appending an action record and a denial record stays pair-free when
the denial check over the trailing five entries came back at most one:
any older denial of the same operation within four positions would have
been inside that window. -/
theorem noDenialPair_append_denial (h : List Entry) (a1 : AgentAction)
    (s : Nat) (name : String)
    (hn : noDenialPair h)
    (hguard : denialCount name
      (h ++ [.action s a1, .consentDenied s name]) ≤ 1) :
    noDenialPair (h ++ [.action s a1, .consentDenied s name]) := by
  intro op i j e1 e2 hij hjle hi1 hi2 hd1 hd2
  have hjlen : j < (h ++ [Entry.action s a1, Entry.consentDenied s name]).length :=
    (List.get?_eq_some.mp hi2).1
  have hLlen : (h ++ [Entry.action s a1, Entry.consentDenied s name]).length =
      h.length + 2 := by simp
  rcases lt_trichotomy j h.length with hj | hj | hj
  · exact hn op i j e1 e2 hij hjle
      (by rwa [List.get?_append (lt_trans hij hj)] at hi1)
      (by rwa [List.get?_append hj] at hi2) hd1 hd2
  · have he2 : e2 = Entry.action s a1 := by
      rw [List.get?_append_right (le_of_eq hj.symm)] at hi2
      rw [hj] at hi2
      simp at hi2
      exact hi2.symm
    rw [he2] at hd2
    simp [Entry.isDenialOf] at hd2
  · have hj1 : j = h.length + 1 := by omega
    have he2 : e2 = Entry.consentDenied s name := by
      rw [List.get?_append_right (by omega)] at hi2
      rw [hj1] at hi2
      simp at hi2
      exact hi2.symm
    have hop : op = name := by
      rw [he2] at hd2
      simp [Entry.isDenialOf] at hd2
      exact hd2.symm
    rcases lt_trichotomy i h.length with hi | hi | hi
    · -- the older denial sits inside the checked window
      set L := h ++ [Entry.action s a1, Entry.consentDenied s name] with hL
      have hk : L.length - 5 ≤ i := by
        rw [hLlen]
        omega
      have hw1 : (L.drop (L.length - 5)).get? (i - (L.length - 5)) = some e1 := by
        rw [List.get?_drop]
        have : L.length - 5 + (i - (L.length - 5)) = i := by omega
        rw [this]
        exact hi1
      have hw2 : (L.drop (L.length - 5)).get? (j - (L.length - 5)) = some e2 := by
        rw [List.get?_drop]
        have : L.length - 5 + (j - (L.length - 5)) = j := by omega
        rw [this]
        exact hi2
      have h2c := two_denials_le_count (L.drop (L.length - 5)) name
        (i - (L.length - 5)) (j - (L.length - 5)) e1 e2 (by omega) hw1 hw2
        (hop ▸ hd1) (hop ▸ hd2)
      rw [denialCount_eq_countDenOf] at hguard
      omega
    · have he1 : e1 = Entry.action s a1 := by
        rw [List.get?_append_right (le_of_eq hi.symm)] at hi1
        rw [hi] at hi1
        simp at hi1
        exact hi1.symm
      rw [he1] at hd1
      simp [Entry.isDenialOf] at hd1
    · omega

/-! ## Per-iteration facts about `runStepEffect` -/

/-- Everything the loop invariants need to know about one iteration's
effect: the appended block is non-empty and carries the iteration's step
index; a continuing block contains no final-result record and either no
denial or exactly the checked denial (with the guard that let it
continue); a breaker block has the exact three-record shape with its
guard; a finish block is the single action record; and a non-interactive
iteration never touches the consent manager or denies anything. -/
def StepSpec (i : Bool) (step : Nat) (st : LoopSt) (ef : StepEffect) : Prop :=
  ef.entries ≠ [] ∧
  (∀ e ∈ ef.entries, e.stepIdx = step) ∧
  (ef.ctrl = .contin → ∀ e ∈ ef.entries, e.isFinalResult = false) ∧
  (ef.ctrl = .contin →
    (∀ e ∈ ef.entries, e.isConsentDenied = false) ∨
    (∃ a n, ef.entries = [.action step a, .consentDenied step n] ∧
      denialCount n (st.history ++ ef.entries) ≤ 1)) ∧
  (∀ res, ef.ctrl = .breakerStop res →
    ∃ a n, res = breakerMessage n ∧
      ef.entries = [.action step a, .consentDenied step n, .finalResult step res] ∧
      2 ≤ denialCount n (st.history ++ [.action step a, .consentDenied step n])) ∧
  (∀ res, ef.ctrl = .finishStop res → ef.entries = [.action step (.finish res)]) ∧
  (i = false → ef.consentCalls = st.consentCalls ∧ ef.consent = st.consent ∧
    (∀ e ∈ ef.entries, e.isConsentDenied = false) ∧
    ∀ res, ef.ctrl ≠ .breakerStop res)

theorem checkIfConsentNeeded_not_interactive (n : String)
    (a : List (String × String)) (c : ConsentCfg) :
    checkIfConsentNeeded n a c false = false := rfl

theorem mem_single_elim {e x : Entry} (he : e ∈ [x]) : e = x := by
  simpa using he

theorem mem_pair_elim {e x y : Entry} (he : e ∈ [x, y]) : e = x ∨ e = y := by
  simpa using he

theorem mem_triple_elim {e x y z : Entry} (he : e ∈ [x, y, z]) :
    e = x ∨ e = y ∨ e = z := by
  simpa using he

theorem stepSpec_error1 (i : Bool) (step : Nat) (st : LoopSt) (m : String)
    (c : ConsentState) (hc : c = st.consent) :
    StepSpec i step st ⟨[.error step m], c, st.consentCalls, st.toolCalls, .contin⟩ := by
  subst hc
  refine ⟨by simp, ?_, ?_, ?_, ?_, ?_, ?_⟩ <;>
    simp [Entry.stepIdx, Entry.isFinalResult, Entry.isConsentDenied]

theorem stepSpec_pair (i : Bool) (step : Nat) (st : LoopSt) (a : AgentAction)
    (e2 : Entry) (c : ConsentState) (cc tc : Nat)
    (h2 : e2.stepIdx = step) (hnd : e2.isConsentDenied = false)
    (hnf : e2.isFinalResult = false)
    (hni : i = false → cc = st.consentCalls ∧ c = st.consent) :
    StepSpec i step st ⟨[.action step a, e2], c, cc, tc, .contin⟩ := by
  refine ⟨by simp, ?_, ?_, ?_, ?_, ?_, ?_⟩
  · intro e he
    rcases mem_pair_elim he with rfl | rfl <;> simp_all [Entry.stepIdx]
  · intro _ e he
    rcases mem_pair_elim he with rfl | rfl <;> simp_all [Entry.isFinalResult]
  · intro _
    left
    intro e he
    rcases mem_pair_elim he with rfl | rfl <;> simp_all [Entry.isConsentDenied]
  · intro res h; cases h
  · intro res h; cases h
  · intro hi
    refine ⟨(hni hi).1, (hni hi).2, ?_, ?_⟩
    · intro e he
      rcases mem_pair_elim he with rfl | rfl <;> simp_all [Entry.isConsentDenied]
    · intro res h; cases h

theorem stepSpec_denial_cont (i : Bool) (step : Nat) (st : LoopSt)
    (a : AgentAction) (n : String) (c : ConsentState)
    (hguard : denialCount n
      (st.history ++ [.action step a, .consentDenied step n]) ≤ 1)
    (hint : i = false → False) :
    StepSpec i step st ⟨[.action step a, .consentDenied step n], c,
      st.consentCalls + 1, st.toolCalls, .contin⟩ := by
  refine ⟨by simp, ?_, ?_, ?_, ?_, ?_, ?_⟩
  · intro e he
    rcases mem_pair_elim he with rfl | rfl <;> simp_all [Entry.stepIdx]
  · intro _ e he
    rcases mem_pair_elim he with rfl | rfl <;> simp_all [Entry.isFinalResult]
  · intro _
    exact Or.inr ⟨a, n, rfl, hguard⟩
  · intro res h; cases h
  · intro res h; cases h
  · intro hi; exact absurd hi (fun h => hint h)

theorem stepSpec_breaker (i : Bool) (step : Nat) (st : LoopSt)
    (a : AgentAction) (n : String) (c : ConsentState)
    (hguard : 2 ≤ denialCount n
      (st.history ++ [.action step a, .consentDenied step n]))
    (hint : i = false → False) :
    StepSpec i step st ⟨[.action step a, .consentDenied step n,
        .finalResult step (breakerMessage n)], c,
      st.consentCalls + 1, st.toolCalls, .breakerStop (breakerMessage n)⟩ := by
  refine ⟨by simp, ?_, ?_, ?_, ?_, ?_, ?_⟩
  · intro e he
    rcases mem_triple_elim he with rfl | rfl | rfl <;> simp_all [Entry.stepIdx]
  · intro h; cases h
  · intro h; cases h
  · intro res h
    cases h
    exact ⟨a, n, rfl, rfl, hguard⟩
  · intro res h; cases h
  · intro hi; exact absurd hi (fun h => hint h)

theorem stepSpec_think_none (i : Bool) (step : Nat) (st : LoopSt)
    (a : AgentAction) (m : String) :
    StepSpec i step st ⟨[.action step a, .thought step none, .error step m],
      st.consent, st.consentCalls, st.toolCalls, .contin⟩ := by
  refine ⟨by simp, ?_, ?_, ?_, ?_, ?_, ?_⟩
  · intro e he
    rcases mem_triple_elim he with rfl | rfl | rfl <;> simp_all [Entry.stepIdx]
  · intro _ e he
    rcases mem_triple_elim he with rfl | rfl | rfl <;>
      simp_all [Entry.isFinalResult]
  · intro _
    left
    intro e he
    rcases mem_triple_elim he with rfl | rfl | rfl <;>
      simp_all [Entry.isConsentDenied]
  · intro res h; cases h
  · intro res h; cases h
  · intro _
    refine ⟨rfl, rfl, ?_, ?_⟩
    · intro e he
      rcases mem_triple_elim he with rfl | rfl | rfl <;>
      simp_all [Entry.isConsentDenied]
    · intro res h; cases h

theorem stepSpec_finish (i : Bool) (step : Nat) (st : LoopSt)
    (out : Option String) :
    StepSpec i step st ⟨[.action step (.finish out)], st.consent,
      st.consentCalls, st.toolCalls, .finishStop out⟩ := by
  refine ⟨by simp, ?_, ?_, ?_, ?_, ?_, ?_⟩
  · intro e he
    rw [mem_single_elim he]
    simp [Entry.stepIdx]
  · intro h; cases h
  · intro h; cases h
  · intro res h; cases h
  · intro res h
    cases h
    rfl
  · intro _
    refine ⟨rfl, rfl, ?_, ?_⟩
    · intro e he
      rw [mem_single_elim he]
      simp [Entry.isConsentDenied]
    · intro res h; cases h

/-- Master case analysis: every iteration's effect satisfies `StepSpec`. -/
theorem runStepEffect_spec (env : RuntimeEnv) (cfg : ConsentCfg)
    (i sT qM : Bool) (step : Nat) (st : LoopSt) :
    StepSpec i step st (runStepEffect env cfg i sT qM step st) := by
  rcases hplan : env.plan step st.history with m | raw
  · simp only [runStepEffect, hplan]
    exact stepSpec_error1 i step st _ _ rfl
  · rcases hval : validateAction env.fileOpSafe raw with e | act
    · simp only [runStepEffect, hplan, hval]
      exact stepSpec_error1 i step st _ _ rfl
    · rcases act with ⟨name, args⟩ | r | out
      · by_cases ht : env.toolExists name
        · by_cases hcn : checkIfConsentNeeded name args cfg i
          · have hint : i = false → False := by
              intro hi
              rw [hi, checkIfConsentNeeded_not_interactive] at hcn
              exact Bool.false_ne_true hcn
            by_cases hg : (requestOperationConsent env.safeDir st.consent
                ⟨name, extractOperationTarget name args, args⟩
                (env.userChoice st.consentCalls)).1
            · simp only [runStepEffect, hplan, hval, ht, hcn, hg, toolEffect,
                Bool.not_true, Bool.false_eq_true, if_false, if_true]
              rcases env.toolRun st.toolCalls with m | v
              · exact stepSpec_pair i step st _ _ _ _ _ rfl rfl rfl
                  (fun hi => absurd (hint hi) id)
              · exact stepSpec_pair i step st _ _ _ _ _ rfl rfl rfl
                  (fun hi => absurd (hint hi) id)
            · simp only [Bool.not_eq_true] at hg
              by_cases hd : denialCount name
                  (st.history ++ [.action step (.tool name args),
                    .consentDenied step name]) ≥ 2
              · simp only [runStepEffect, hplan, hval, ht, hcn, hg, hd,
                  Bool.not_true, Bool.not_false, Bool.false_eq_true, if_false,
                  if_true, ge_iff_le]
                exact stepSpec_breaker i step st _ _ _ hd hint
              · simp only [runStepEffect, hplan, hval, ht, hcn, hg,
                  Bool.not_true, Bool.not_false, Bool.false_eq_true, if_false,
                  if_true, ge_iff_le, hd]
                exact stepSpec_denial_cont i step st _ _ _ (by omega) hint
          · simp only [Bool.not_eq_true] at hcn
            simp only [runStepEffect, hplan, hval, ht, hcn, toolEffect,
              Bool.not_true, Bool.false_eq_true, if_false]
            rcases env.toolRun st.toolCalls with m | v
            · exact stepSpec_pair i step st _ _ _ _ _ rfl rfl rfl
                (fun _ => ⟨rfl, rfl⟩)
            · exact stepSpec_pair i step st _ _ _ _ _ rfl rfl rfl
                (fun _ => ⟨rfl, rfl⟩)
        · simp only [Bool.not_eq_true] at ht
          simp only [runStepEffect, hplan, hval, ht, Bool.not_false, if_true]
          exact stepSpec_pair i step st _ _ _ _ _ rfl rfl rfl
            (fun _ => ⟨rfl, rfl⟩)
      · rcases r with _ | s
        · by_cases hv : sT && !qM
          · simp only [runStepEffect, hplan, hval, thinkEffect, hv, if_true]
            exact stepSpec_pair i step st _ _ _ _ _ rfl rfl rfl
              (fun _ => ⟨rfl, rfl⟩)
          · simp only [Bool.not_eq_true] at hv
            simp only [runStepEffect, hplan, hval, thinkEffect, hv,
              Bool.false_eq_true, if_false]
            exact stepSpec_think_none i step st _ _
        · simp only [runStepEffect, hplan, hval, thinkEffect]
          exact stepSpec_pair i step st _ _ _ _ _ rfl rfl rfl
            (fun _ => ⟨rfl, rfl⟩)
      · simp only [runStepEffect, hplan, hval]
        exact stepSpec_finish i step st out

/-! ## Loop invariants and the run-level specification -/

/-- What holds at the top of iteration `step`. -/
structure LoopInv (step : Nat) (st : LoopSt) : Prop where
  good : goodSteps (st.history.map Entry.stepIdx) = true
  last : (st.history = [] ∧ step = 0) ∨
    (st.history ≠ [] ∧ lastIdxD (st.history.map Entry.stepIdx) 0 = step - 1)
  pairs : noDenialPair st.history
  noFinal : ∀ e ∈ st.history, e.isFinalResult = false

/-- What each kind of return value satisfies (the loop never produces
`invalidGoal`). -/
def RunSpec : RunRet → Prop
  | .invalidGoal => False
  | .maxStepsHit _ st2 =>
      goodSteps (st2.history.map Entry.stepIdx) = true ∧
      noDenialPair st2.history ∧
      (∀ e ∈ st2.history, e.isFinalResult = false)
  | .finished res st2 =>
      goodSteps (st2.history.map Entry.stepIdx) = true ∧
      noDenialPair st2.history ∧
      (∀ e ∈ st2.history, e.isFinalResult = false) ∧
      (∃ h s, st2.history = h ++ [.action s (.finish res)])
  | .breaker res st2 =>
      goodSteps (st2.history.map Entry.stepIdx) = true ∧
      (∃ h s a n, st2.history =
          h ++ [.action s a, .consentDenied s n, .finalResult s res] ∧
        res = breakerMessage n ∧ noDenialPair h ∧
        (∀ e ∈ h, e.isFinalResult = false))

/-- Appending one iteration's block keeps the step-index chain good and
pins the new last index to `step`. -/
theorem loopInv_good_last (step : Nat) (st : LoopSt) (ef : StepEffect)
    (hinv : LoopInv step st)
    (hne : ef.entries ≠ [])
    (hsteps : ∀ e ∈ ef.entries, e.stepIdx = step) :
    goodSteps ((st.history ++ ef.entries).map Entry.stepIdx) = true ∧
    ((st.history ++ ef.entries) ≠ [] ∧
      lastIdxD ((st.history ++ ef.entries).map Entry.stepIdx) 0 = step) := by
  have hb : ∀ x ∈ ef.entries.map Entry.stepIdx, x = step := by
    intro x hx
    obtain ⟨e, he, hxe⟩ := List.mem_map.mp hx
    rw [← hxe]
    exact hsteps e he
  have hbne : ef.entries.map Entry.stepIdx ≠ [] := by
    simpa using hne
  have hl : (st.history.map Entry.stepIdx = [] ∧ step = 0) ∨
      (st.history.map Entry.stepIdx ≠ [] ∧
        lastIdxD (st.history.map Entry.stepIdx) 0 = step - 1) := by
    rcases hinv.last with ⟨h1, h2⟩ | ⟨h1, h2⟩
    · exact Or.inl ⟨by simp [h1], h2⟩
    · exact Or.inr ⟨by simpa using h1, h2⟩
  refine ⟨?_, ?_, ?_⟩
  · rw [List.map_append]
    exact goodSteps_append _ _ step hb hinv.good hl
  · simp [hne]
  · rw [List.map_append, lastIdxD_append _ _ _ hbne]
    exact lastIdxD_all_eq step _ hb hbne 0

/-- The loop satisfies `RunSpec` from any invariant-satisfying state. -/
theorem runLoopAux_spec (env : RuntimeEnv) (cfg : ConsentCfg)
    (i sT qM : Bool) (ms : Nat) :
    ∀ (fuel step : Nat) (st : LoopSt), LoopInv step st →
      RunSpec (runLoopAux env cfg i sT qM ms fuel step st) := by
  intro fuel
  induction fuel with
  | zero =>
    intro step st hinv
    exact ⟨hinv.good, hinv.pairs, hinv.noFinal⟩
  | succ n ih =>
    intro step st hinv
    have hspec := runStepEffect_spec env cfg i sT qM step st
    obtain ⟨hne, hsteps, hcnf, hcden, hbrk, hfin, -⟩ := hspec
    have hgl := loopInv_good_last step st _ hinv hne hsteps
    simp only [runLoopAux]
    rcases hctl : (runStepEffect env cfg i sT qM step st).ctrl with _ | res | res
    · -- the iteration continues
      apply ih (step + 1) _
      refine ⟨?_, Or.inr ⟨?_, ?_⟩, ?_, ?_⟩
      · show goodSteps ((st.history ++
            (runStepEffect env cfg i sT qM step st).entries).map Entry.stepIdx) = true
        exact hgl.1
      · show st.history ++ (runStepEffect env cfg i sT qM step st).entries ≠ []
        exact hgl.2.1
      · show lastIdxD ((st.history ++
            (runStepEffect env cfg i sT qM step st).entries).map Entry.stepIdx) 0 =
          (step + 1) - 1
        exact hgl.2.2
      · -- pair-freedom
        show noDenialPair (st.history ++
          (runStepEffect env cfg i sT qM step st).entries)
        rcases hcden hctl with hsafe | ⟨a, nm, hb, hguard⟩
        · exact noDenialPair_append_safe _ _ hinv.pairs hsafe
        · rw [hb] at hguard ⊢
          exact noDenialPair_append_denial _ _ _ _ hinv.pairs hguard
      · -- no final-result records
        show ∀ e ∈ st.history ++
          (runStepEffect env cfg i sT qM step st).entries, e.isFinalResult = false
        intro e he
        rcases List.mem_append.mp he with h | h
        · exact hinv.noFinal e h
        · exact hcnf hctl e h
    · -- denial circuit breaker
      obtain ⟨a, nm, hres, hentries, -⟩ := hbrk res hctl
      refine ⟨hgl.1, st.history, step, a, nm, ?_, hres, hinv.pairs, hinv.noFinal⟩
      show st.history ++ (runStepEffect env cfg i sT qM step st).entries = _
      rw [hentries]
    · -- explicit finish
      have hent := hfin res hctl
      refine ⟨hgl.1, ?_, ?_, st.history, step, ?_⟩
      · apply noDenialPair_append_safe _ _ hinv.pairs
        rw [hent]
        intro e he
        rw [mem_single_elim he]
        rfl
      · intro e he
        rcases List.mem_append.mp he with h | h
        · exact hinv.noFinal e h
        · rw [hent] at h
          rw [mem_single_elim h]
          rfl
      · show st.history ++ (runStepEffect env cfg i sT qM step st).entries = _
        rw [hent]

/-- The initial state satisfies the invariant. -/
theorem loopInv_init (interactive autoApprove : Bool) :
    LoopInv 0 ⟨[], ConsentState.init interactive autoApprove, 0, 0⟩ := by
  refine ⟨rfl, Or.inl ⟨rfl, rfl⟩, ?_, ?_⟩
  · intro op i j e1 e2 _ _ h1 _ _ _
    simp at h1
  · intro e he
    simp at he

/-- Every `run_agent` return satisfies `RunSpec` unless the goal was
rejected up front. -/
theorem runAgent_spec (env : RuntimeEnv) (cfg : ConsentCfg)
    (sT qM : Bool) (ip : Option Bool) (ms : Nat) :
    RunSpec (runAgent env cfg true ms sT qM ip) := by
  unfold runAgent
  simp only [Bool.not_true, Bool.false_eq_true, if_false]
  exact runLoopAux_spec env cfg _ sT qM ms ms 0 _ (loopInv_init _ _)

/-- With interactive consent off, the loop never touches the consent
cursor and never records a denial. -/
theorem runLoopAux_noninteractive (env : RuntimeEnv) (cfg : ConsentCfg)
    (sT qM : Bool) (ms : Nat) :
    ∀ (fuel step : Nat) (st : LoopSt),
      st.consentCalls = 0 →
      (∀ e ∈ st.history, e.isConsentDenied = false) →
      ∀ st2, (runLoopAux env cfg false sT qM ms fuel step st).finalSt = some st2 →
        st2.consentCalls = 0 ∧ ∀ e ∈ st2.history, e.isConsentDenied = false := by
  intro fuel
  induction fuel with
  | zero =>
    intro step st hcc hnd st2 h2
    simp only [runLoopAux, RunRet.finalSt, Option.some.injEq] at h2
    rw [← h2]
    exact ⟨hcc, hnd⟩
  | succ n ih =>
    intro step st hcc hnd st2 h2
    obtain ⟨-, -, -, -, -, -, hni⟩ := runStepEffect_spec env cfg false sT qM step st
    obtain ⟨hc1, -, hc3, hc4⟩ := hni rfl
    simp only [runLoopAux] at h2
    rcases hctl : (runStepEffect env cfg false sT qM step st).ctrl with _ | res | res
    · rw [hctl] at h2
      refine ih (step + 1) _ ?_ ?_ st2 h2
      · show (runStepEffect env cfg false sT qM step st).consentCalls = 0
        rw [hc1, hcc]
      · show ∀ e ∈ st.history ++
          (runStepEffect env cfg false sT qM step st).entries,
          e.isConsentDenied = false
        intro e he
        rcases List.mem_append.mp he with h | h
        · exact hnd e h
        · exact hc3 e h
    · exact absurd hctl (hc4 res)
    · rw [hctl] at h2
      simp only [RunRet.finalSt, Option.some.injEq] at h2
      rw [← h2]
      refine ⟨?_, ?_⟩
      · show (runStepEffect env cfg false sT qM step st).consentCalls = 0
        rw [hc1, hcc]
      · show ∀ e ∈ st.history ++
          (runStepEffect env cfg false sT qM step st).entries,
          e.isConsentDenied = false
        intro e he
        rcases List.mem_append.mp he with h | h
        · exact hnd e h
        · exact hc3 e h

/-! ## String containment and length-preservation helpers -/

theorem isPrefixOf_append_self (l t : List Char) :
    l.isPrefixOf (l ++ t) = true := by
  induction l with
  | nil => simp [List.isPrefixOf]
  | cons c rest ih => simp [List.isPrefixOf, ih]

theorem listContainsSub_append (n x y : List Char) :
    listContainsSub n (x ++ n ++ y) = true := by
  induction x with
  | nil =>
    show listContainsSub n (n ++ y) = true
    cases hny : n ++ y with
    | nil =>
      have : n = [] := (List.append_eq_nil.mp hny).1
      simp [listContainsSub, this]
    | cons c rest =>
      rw [listContainsSub, ← hny, isPrefixOf_append_self]
      rfl
  | cons c xs ih =>
    show listContainsSub n (c :: (xs ++ n ++ y)) = true
    rw [listContainsSub, ih]
    simp

theorem strContainsSub_breakerMessage (op : String) :
    strContainsSub op (breakerMessage op) = true := by
  show listContainsSub op.data (breakerMessage op).data = true
  rw [breakerMessage, String.data_append, String.data_append]
  exact listContainsSub_append op.data _ _

theorem replaceAllAux_length (old new : List Char)
    (hlen : new.length = old.length) :
    ∀ (fuel : Nat) (s : List Char),
      (replaceAllAux old new fuel s).length = s.length := by
  intro fuel
  induction fuel with
  | zero => intro s; rfl
  | succ n ih =>
    intro s
    cases s with
    | nil => rfl
    | cons c rest =>
      rw [replaceAllAux]
      split_ifs with hp
      · simp only [Bool.and_eq_true, decide_eq_true_eq] at hp
        have hle : old.length ≤ (c :: rest).length :=
          (List.isPrefixOf_iff_prefix.mp hp.2).length_le
        simp only [List.length_append, ih, List.length_drop]
        simp only [List.length_cons] at hle ⊢
        omega
      · simp [ih]

theorem replaceAll_length (s old new : List Char)
    (hlen : new.length = old.length) :
    (replaceAll s old new).length = s.length :=
  replaceAllAux_length old new hlen s.length s

theorem applyPattern_length (m : List Char → Option (List Char))
    (t : List Char) : (applyPattern m t).length = t.length := by
  rw [applyPattern]
  generalize findIter m t = gs
  induction gs generalizing t with
  | nil => rfl
  | cons g rest ih =>
    rw [List.foldl_cons]
    rw [ih (replaceAll t g (List.replicate g.length '*'))]
    exact replaceAll_length t g _ (by simp)

theorem filterSensitiveL_length (t : List Char) :
    (filterSensitiveL t).length = t.length := by
  rw [filterSensitiveL]
  generalize sensitiveMatchers = ms
  induction ms generalizing t with
  | nil => rfl
  | cons m rest ih =>
    rw [List.foldl_cons, ih (applyPattern m t), applyPattern_length]

theorem filterSensitiveContent_length (s : String) :
    (filterSensitiveContent s).length = s.length :=
  filterSensitiveL_length s.data

/-- Positions in a history ending in the breaker's three-record block. -/
theorem get?_block3 (h' : List Entry) (A D F : Entry) (k : Nat) (e : Entry)
    (hk : (h' ++ [A, D, F]).get? k = some e) :
    (k < h'.length ∧ h'.get? k = some e) ∨
    (k = h'.length ∧ e = A) ∨ (k = h'.length + 1 ∧ e = D) ∨
    (k = h'.length + 2 ∧ e = F) := by
  by_cases hkl : k < h'.length
  · exact Or.inl ⟨hkl, by rwa [List.get?_append hkl] at hk⟩
  · push_neg at hkl
    rw [List.get?_append_right hkl] at hk
    rcases hd : k - h'.length with _ | _ | _ | m
    all_goals rw [hd] at hk
    · simp only [List.get?, Option.some.injEq] at hk
      exact Or.inr (Or.inl ⟨by omega, hk.symm⟩)
    · simp only [List.get?, Option.some.injEq] at hk
      exact Or.inr (Or.inr (Or.inl ⟨by omega, hk.symm⟩))
    · simp only [List.get?, Option.some.injEq] at hk
      exact Or.inr (Or.inr (Or.inr ⟨by omega, hk.symm⟩))
    · simp at hk

/-- A denial record in a breaker-terminated history is either inside the
pre-breaker prefix or is the final denial itself (for its operation). -/
theorem breaker_denial_pos (h' : List Entry) (s : Nat) (a : AgentAction)
    (nm res : String) (k : Nat) (e : Entry) (op : String)
    (hk : (h' ++ [Entry.action s a, Entry.consentDenied s nm,
      Entry.finalResult s res]).get? k = some e)
    (hde : e.isDenialOf op = true) :
    (k < h'.length ∧ h'.get? k = some e) ∨
    (k = h'.length + 1 ∧ e = Entry.consentDenied s nm ∧ op = nm) := by
  rcases get?_block3 h' _ _ _ k e hk with
    ⟨hkl, hq⟩ | ⟨-, he⟩ | ⟨hkk, he⟩ | ⟨-, he⟩
  · exact Or.inl ⟨hkl, hq⟩
  · rw [he] at hde
    simp [Entry.isDenialOf] at hde
  · refine Or.inr ⟨hkk, he, ?_⟩
    rw [he] at hde
    simp only [Entry.isDenialOf, decide_eq_true_eq] at hde
    exact hde.symm
  · rw [he] at hde
    simp [Entry.isDenialOf] at hde

/-! ## Claim theorems about the step loop -/

/-- C1: in every run, (i) three consent denials of one operation within
any five consecutive history entries are unreachable, and (ii) the moment
two denials of the same operation lie within the trailing window, the run
is the breaker return: its result is the hard-coded message naming that
operation, the second denial is followed by exactly one `{step,
final_result}` record carrying that message, and nothing comes after. -/
theorem C1_denial_circuit_breaker (env : RuntimeEnv) (cfg : ConsentCfg)
    (sT qM : Bool) (ip : Option Bool) (gv : Bool) (ms : Nat)
    (h : List Entry)
    (hh : (runAgent env cfg gv ms sT qM ip).histOf = some h) :
    (∀ (op : String) (p1 p2 p3 : Nat) (e1 e2 e3 : Entry),
      p1 < p2 → p2 < p3 → p3 ≤ p1 + 4 →
      h.get? p1 = some e1 → h.get? p2 = some e2 → h.get? p3 = some e3 →
      e1.isDenialOf op = true → e2.isDenialOf op = true →
      e3.isDenialOf op = true → False) ∧
    (∀ (op : String) (i j : Nat) (e1 e2 : Entry),
      i < j → j ≤ i + 4 →
      h.get? i = some e1 → h.get? j = some e2 →
      e1.isDenialOf op = true → e2.isDenialOf op = true →
      ∃ st2, runAgent env cfg gv ms sT qM ip =
          .breaker (breakerMessage op) st2 ∧
        strContainsSub op (breakerMessage op) = true ∧
        h.length = j + 2 ∧
        h.get? (j + 1) = some (.finalResult e2.stepIdx (breakerMessage op))) := by
  by_cases hgv : gv = true
  · subst hgv
    have hs := runAgent_spec env cfg sT qM ip ms
    rcases hr : runAgent env cfg true ms sT qM ip with _ | ⟨res, st2⟩ | ⟨res, st2⟩ | ⟨res, st2⟩ <;>
      rw [hr] at hs hh
    · exact absurd hs id
    -- denial circuit breaker
    · obtain ⟨-, h', s, a, nm, hhist, hres, hpairs, -⟩ := hs
      have hheq : h = st2.history := by
        simpa [RunRet.histOf, RunRet.finalSt] using hh.symm
      rw [hhist] at hheq
      subst hheq
      constructor
      · intro op p1 p2 p3 e1 e2 e3 h12 h23 h34 hg1 hg2 hg3 hd1 hd2 hd3
        rcases breaker_denial_pos h' s a nm res p1 e1 op hg1 hd1 with
          ⟨hl1, hq1⟩ | ⟨hk1, -, -⟩
        · rcases breaker_denial_pos h' s a nm res p2 e2 op hg2 hd2 with
            ⟨hl2, hq2⟩ | ⟨hk2, -, -⟩
          · exact hpairs op p1 p2 e1 e2 h12 (by omega) hq1 hq2 hd1 hd2
          · rcases breaker_denial_pos h' s a nm res p3 e3 op hg3 hd3 with
              ⟨hl3, -⟩ | ⟨hk3, -, -⟩
            · omega
            · omega
        · rcases breaker_denial_pos h' s a nm res p2 e2 op hg2 hd2 with
            ⟨hl2, -⟩ | ⟨hk2, -, -⟩
          · omega
          · omega
      · intro op i j e1 e2 hij hjle hg1 hg2 hd1 hd2
        rcases breaker_denial_pos h' s a nm res j e2 op hg2 hd2 with
          ⟨hjl, hq2⟩ | ⟨hjk, he2, hop⟩
        · rcases breaker_denial_pos h' s a nm res i e1 op hg1 hd1 with
            ⟨hil, hq1⟩ | ⟨hik, -, -⟩
          · exact absurd (hpairs op i j e1 e2 hij hjle hq1 hq2 hd1 hd2) id
          · omega
        · subst hop
          refine ⟨st2, ?_, strContainsSub_breakerMessage op, ?_, ?_⟩
          · rw [hres]
          · simp only [List.length_append, List.length_cons, List.length_nil]
            omega
          · have hj1 : j + 1 = h'.length + 2 := by omega
            rw [hj1, List.get?_append_right (by omega)]
            have h2 : h'.length + 2 - h'.length = 2 := by omega
            rw [h2]
            simp only [List.get?]
            rw [he2]
            simp only [Entry.stepIdx, hres]
    -- explicit finish: its history is pair-free
    · obtain ⟨-, hpairs, -, -⟩ := hs
      have hheq : h = st2.history := by
        simpa [RunRet.histOf, RunRet.finalSt] using hh.symm
      subst hheq
      constructor
      · intro op p1 p2 p3 e1 e2 e3 h12 h23 h34 hg1 hg2 hg3 hd1 hd2 hd3
        exact hpairs op p1 p2 e1 e2 h12 (by omega) hg1 hg2 hd1 hd2
      · intro op i j e1 e2 hij hjle hg1 hg2 hd1 hd2
        exact absurd (hpairs op i j e1 e2 hij hjle hg1 hg2 hd1 hd2) id
    -- max-steps: its history is pair-free
    · obtain ⟨-, hpairs, -⟩ := hs
      have hheq : h = st2.history := by
        simpa [RunRet.histOf, RunRet.finalSt] using hh.symm
      subst hheq
      constructor
      · intro op p1 p2 p3 e1 e2 e3 h12 h23 h34 hg1 hg2 hg3 hd1 hd2 hd3
        exact hpairs op p1 p2 e1 e2 h12 (by omega) hg1 hg2 hd1 hd2
      · intro op i j e1 e2 hij hjle hg1 hg2 hd1 hd2
        exact absurd (hpairs op i j e1 e2 hij hjle hg1 hg2 hd1 hd2) id
  · have hgf : gv = false := by
      cases gv
      · rfl
      · exact absurd rfl hgv
    rw [hgf] at hh
    simp [runAgent, RunRet.histOf, RunRet.finalSt] at hh

/-- Witness for C1: the two-denial `file.write` run terminates through the
breaker with the hard-coded message naming the operation. -/
theorem C1_denial_circuit_breaker_witness :
    runAgent envDeny cfgT true 3 false false (some true) =
      .breaker (breakerMessage "file.write") denyFinalSt := by
  obtain ⟨st2, hr2, -, -, -⟩ :=
    (C1_denial_circuit_breaker envDeny cfgT false false (some true) true 3
      denyHist (by decide)).2 "file.write" 1 3
      (.consentDenied 0 "file.write") (.consentDenied 1 "file.write")
      (by omega) (by omega) (by decide) (by decide) (by decide) (by decide)
  have hst : RunRet.breaker (breakerMessage "file.write") st2 =
      RunRet.breaker (breakerMessage "file.write") denyFinalSt := by
    rw [← hr2]
    decide
  exact hr2.trans hst

/-- C2 (amended): `run_agent` always produces a return value; a valid goal
never yields the input-validation return, and the keys of the returned
mapping are `trace_id, result, history` plus `memory_summary` for the
explicit-finish and max-steps terminals but `context` for the
denial-circuit-breaker terminal, while an invalid goal returns only
`error, trace_id`. -/
theorem C2_return_shapes (env : RuntimeEnv) (cfg : ConsentCfg)
    (sT qM : Bool) (ip : Option Bool) (gv : Bool) (ms : Nat) :
    (gv = true → runAgent env cfg gv ms sT qM ip ≠ .invalidGoal) ∧
    (runAgent env cfg gv ms sT qM ip = .invalidGoal →
      (runAgent env cfg gv ms sT qM ip).retKeys = ["error", "trace_id"]) ∧
    (∀ res st2, runAgent env cfg gv ms sT qM ip = .breaker res st2 →
      (runAgent env cfg gv ms sT qM ip).retKeys =
        ["trace_id", "result", "history", "context"]) ∧
    (∀ res st2, runAgent env cfg gv ms sT qM ip = .finished res st2 →
      (runAgent env cfg gv ms sT qM ip).retKeys =
        ["trace_id", "result", "history", "memory_summary"]) ∧
    (∀ res st2, runAgent env cfg gv ms sT qM ip = .maxStepsHit res st2 →
      (runAgent env cfg gv ms sT qM ip).retKeys =
        ["trace_id", "result", "history", "memory_summary"]) := by
  refine ⟨?_, ?_, ?_, ?_, ?_⟩
  · intro hgv heq
    subst hgv
    have hs := runAgent_spec env cfg sT qM ip ms
    rw [heq] at hs
    exact hs
  · intro heq
    rw [heq]
    rfl
  · intro res st2 heq
    rw [heq]
    rfl
  · intro res st2 heq
    rw [heq]
    rfl
  · intro res st2 heq
    rw [heq]
    rfl

/-- Witness for C2 (amended): the concrete breaker run returns the
`context`-keyed mapping. -/
theorem C2_return_shapes_witness :
    (runAgent envDeny cfgT true 3 false false (some true)).retKeys =
      ["trace_id", "result", "history", "context"] :=
  (C2_return_shapes envDeny cfgT false false (some true) true 3).2.2.1
    (breakerMessage "file.write") denyFinalSt (by decide)

/-- C4 (amended): on an explicit Finish the loop records no `{step,
final_result}` entry — the terminal iteration's only record is its
`{step, action}` entry, which closes the history; the finish output is
masked for secret patterns during action validation (nonempty output maps
to `filter_sensitive_content`), and that filter preserves length, so no
truncation is applied on this path. -/
theorem C4_finish_behavior (env : RuntimeEnv) (cfg : ConsentCfg)
    (sT qM : Bool) (ip : Option Bool) (gv : Bool) (ms : Nat) :
    (∀ (res : Option String) (st2 : LoopSt),
      runAgent env cfg gv ms sT qM ip = .finished res st2 →
      (∀ e ∈ st2.history, e.isFinalResult = false) ∧
      ∃ h s, st2.history = h ++ [.action s (.finish res)]) ∧
    (∀ (fos : String → String → Bool) (nm : Option String)
      (args : List (String × String)) (rs : Option String) (s : String),
      s ≠ "" →
      validateAction fos ⟨"finish", nm, true, args, some s, rs⟩ =
        .ok (.finish (some (filterSensitiveContent s)))) ∧
    (∀ s : String, (filterSensitiveContent s).length = s.length) := by
  refine ⟨?_, ?_, filterSensitiveContent_length⟩
  · intro res st2 hr
    by_cases hgv : gv = true
    · subst hgv
      have hs := runAgent_spec env cfg sT qM ip ms
      rw [hr] at hs
      exact ⟨hs.2.2.1, hs.2.2.2⟩
    · have hgf : gv = false := by
        cases gv
        · rfl
        · exact absurd rfl hgv
      rw [hgf] at hr
      simp [runAgent] at hr
  · intro fos nm args rs s hs2
    simp [validateAction, hs2]

/-- Witness for C4 (amended): the finish run of `envFin` ends in its
action record with no final-result record, and a concrete nonempty finish
output is masked, not truncated. -/
theorem C4_finish_behavior_witness :
    validateAction (fun _ _ => true)
        ⟨"finish", none, true, [], some "done", none⟩ =
      .ok (.finish (some (filterSensitiveContent "done"))) ∧
    (filterSensitiveContent "done").length = ("done" : String).length ∧
    (∀ e ∈ (⟨[.action 0 (.finish (some "done"))],
        ⟨false, false, [], [], false, false⟩, 0, 0⟩ : LoopSt).history,
      e.isFinalResult = false) := by
  refine ⟨(C4_finish_behavior envFin cfgT false false (some false) true 3).2.1
      _ _ _ _ _ (by decide),
    (C4_finish_behavior envFin cfgT false false (some false) true 3).2.2 _,
    ((C4_finish_behavior envFin cfgT false false (some false) true 3).1
      (some "done") _ (by decide)).1⟩

/-- C6 (amended): in every run the recorded step indices start at 0 and
form a non-decreasing, gap-free sequence in which an index may repeat —
all records of one iteration share the iteration's index (so a tool step
records its action and its observation under one index). -/
theorem C6_step_indices (env : RuntimeEnv) (cfg : ConsentCfg)
    (sT qM : Bool) (ip : Option Bool) (gv : Bool) (ms : Nat)
    (h : List Entry)
    (hh : (runAgent env cfg gv ms sT qM ip).histOf = some h) :
    goodSteps (h.map Entry.stepIdx) = true := by
  by_cases hgv : gv = true
  · subst hgv
    have hs := runAgent_spec env cfg sT qM ip ms
    rcases hr : runAgent env cfg true ms sT qM ip with _ | ⟨res, st2⟩ | ⟨res, st2⟩ | ⟨res, st2⟩ <;>
      rw [hr] at hs hh
    · exact absurd hs id
    all_goals
      have hheq : h = st2.history := by
        simpa [RunRet.histOf, RunRet.finalSt] using hh.symm
    all_goals rw [hheq]
    · exact hs.1
    · exact hs.1
    · exact hs.1
  · have hgf : gv = false := by
      cases gv
      · rfl
      · exact absurd rfl hgv
    rw [hgf] at hh
    simp [runAgent, RunRet.histOf, RunRet.finalSt] at hh

/-- The history of the one-step `math.calc` run. -/
def c6Hist : List Entry :=
  [.action 0 (.tool "math.calc" [("expression", "2 + 2")]),
   .observation 0 (.ostr "ok")]

/-- Witness for C6 (amended): the two same-index records of the one-step
tool run still form a good chain. -/
theorem C6_step_indices_witness :
    goodSteps (c6Hist.map Entry.stepIdx) = true :=
  C6_step_indices envTool cfgT false false (some false) true 1 c6Hist
    (by decide)

/-- C10: when the resolved `interactive_consent` flag is off,
`_check_if_consent_needed` answers False for every tool and argument
mapping, and the run makes no consent request and records no denial —
every resolved tool action goes straight to execution. -/
theorem C10_consent_disabled (env : RuntimeEnv) (cfg : ConsentCfg)
    (gv : Bool) (ms : Nat) (sT qM : Bool) (ip : Option Bool)
    (hni : ip.getD cfg.enableInteractive = false) :
    (∀ (n : String) (a : List (String × String)) (c : ConsentCfg),
      checkIfConsentNeeded n a c false = false) ∧
    ∀ st2, (runAgent env cfg gv ms sT qM ip).finalSt = some st2 →
      st2.consentCalls = 0 ∧ ∀ e ∈ st2.history, e.isConsentDenied = false := by
  refine ⟨fun _ _ _ => rfl, ?_⟩
  intro st2 h2
  by_cases hgv : gv = true
  · subst hgv
    unfold runAgent at h2
    simp only [Bool.not_true, Bool.false_eq_true, if_false] at h2
    rw [hni] at h2
    exact runLoopAux_noninteractive env cfg sT qM ms ms 0 _ rfl
      (by simp) st2 h2
  · have hgf : gv = false := by
      cases gv
      · rfl
      · exact absurd rfl hgv
    rw [hgf] at h2
    simp [runAgent, RunRet.finalSt] at h2

/-- The loop state of the one-step `math.calc` run. -/
def c10FinalSt : LoopSt := ⟨c6Hist, ConsentState.init false false, 0, 1⟩

/-- Witness for C10: the non-interactive tool run consults the consent
engine zero times. -/
theorem C10_consent_disabled_witness :
    checkIfConsentNeeded "file.write" [] cfgT false = false ∧
    c10FinalSt.consentCalls = 0 := by
  refine ⟨(C10_consent_disabled envTool cfgT true 1 false false (some false)
      (by decide)).1 _ _ _, ?_⟩
  exact ((C10_consent_disabled envTool cfgT true 1 false false (some false)
    (by decide)).2 c10FinalSt (by decide)).1

end MiniAgent
